import Mathlib

/-!
Shallow embedding of the nifty-udp endpoint (src/lib.rs): the socket staging
buffer, the six channel state machines, connection bookkeeping, and the
per-datagram step of Client::update, together with proofs about the
specification claims.  Byte strings are lists of naturals (each below 256 on
the real wire); machine integers are Nat with explicit wrap-around at the
places where the source casts.  Instants are naturals (milliseconds).
-/

namespace NiftyUdp

/-- Byte strings are lists of naturals. -/
abbrev Bytes := List Nat

/-- Big-endian interpretation of a byte slice, as in u64 or u128 from_be_bytes. -/
def beNat (bs : Bytes) : Nat := bs.foldl (fun a b => a * 256 + b) 0

/-- Big-endian encoding of a value into exactly k bytes, as in to_be_bytes. -/
def natToBeBytes : Nat → Nat → Bytes
  | 0, _ => []
  | k + 1, v => natToBeBytes k (v / 256) ++ [v % 256]

/-- Rust slice indexing message.get(a..b): some slice iff a ≤ b and b ≤ len. -/
def listGet (l : Bytes) (a b : Nat) : Option Bytes :=
  if a ≤ b ∧ b ≤ l.length then some ((l.drop a).take (b - a)) else none

/-- Checked subtraction: Rust u128 subtraction is a program error on
underflow (panics under overflow checks, as in the debug profile). -/
def checkedSub (a b : Nat) : Option Nat := if b ≤ a then some (a - b) else none

/-- The Error enum of the library (the io::Error payload is omitted). -/
inductive Error where
  | TooManyChannels
  | MessageTooLong
  | SendOnReceiveChannel
  | AddressNotConnected
  | InvalidChannelId
  | SendSingleInvalid
  | IoError
  deriving DecidableEq, Repr

/-- The DisconnectReason enum. -/
inductive DisconnectReason where
  | Kicked
  | Other
  | Timeout
  | OriginChangedInstance
  deriving DecidableEq, Repr

/-- The Event enum produced by Client::update. -/
inductive Event where
  | Connection (addr : Nat)
  | Disconnection (addr : Nat) (reason : DisconnectReason)
  | Message (addr : Nat) (channel_id : Nat) (payload : Bytes)
  deriving DecidableEq, Repr

/-- Socket::write: appends bytes to the staging buffer, or fails with
MessageTooLong leaving the buffer untouched (the source only mutates
out_buffer in the success branch). -/
def socketWrite (max_message_size : Nat) (out_buffer : Bytes) (bytes : Bytes) :
    Bytes × Option Error :=
  if max_message_size - out_buffer.length < bytes.length then
    (out_buffer, some .MessageTooLong)
  else
    (out_buffer ++ bytes, none)

/-- Socket::write in Except form, for composing packets. -/
def socketWriteE (max_message_size : Nat) (out_buffer : Bytes) (bytes : Bytes) :
    Except Error Bytes :=
  match socketWrite max_message_size out_buffer bytes with
  | (_, some e) => .error e
  | (b, none) => .ok b

/-- The loop of successive Socket::write calls appending chunks to the
staged buffer, propagating the first MessageTooLong. -/
def writeChunks (max_message_size : Nat) : Bytes → List Bytes → Except Error Bytes
  | b, [] => .ok b
  | b, c :: rest =>
    match socketWriteE max_message_size b c with
    | .error e => .error e
    | .ok b' => writeChunks max_message_size b' rest

/-- Socket::channel_prefix followed by a sequence of Socket::write calls. -/
def sendChannelPacket (max_message_size channel_id : Nat) (chunks : List Bytes) :
    Except Error Bytes :=
  match socketWriteE max_message_size [] [(channel_id + 3) % 256] with
  | .error e => .error e
  | .ok b => writeChunks max_message_size b chunks

/-- Socket::heartbeat: clear, write [0], write the 16 instance bytes, write
the 16-byte big-endian timestamp. -/
def composeHeartbeat (max_message_size : Nat) (inst : Bytes) (time : Nat) :
    Except Error Bytes :=
  writeChunks max_message_size [] [[0], inst, natToBeBytes 16 time]

/-- Socket::close: clear, write [1]. -/
def composeClose (max_message_size : Nat) : Except Error Bytes :=
  socketWriteE max_message_size [] [1]

/-- The tag-2 echo staged inline in Client::update: clear, write [2], write
the 16 raw timestamp bytes received in the heartbeat. -/
def composeEcho (max_message_size : Nat) (time : Bytes) : Except Error Bytes :=
  writeChunks max_message_size [] [[2], time]

/-- State of a ChannelType::SendReliable channel (Instant modelled as Nat). -/
structure SendReliableSt where
  seq_counter : Nat
  messages_start_seq : Nat
  messages : List (Option (Nat × Bytes))
  deriving DecidableEq, Repr

/-- State of a ChannelType::ReceiveReliable channel. -/
structure ReceiveReliableSt where
  acks_to_send : List Nat
  received_start_seq : Nat
  received : List Bool
  deriving DecidableEq, Repr

/-- State of a ChannelType::SendFecReliable channel (resend_threshhold is an
f32 used only inside the floating-point resend deadline comparison, which is
abstracted in channelTick; it is not part of the embedded state). -/
structure SendFecSt where
  max_data_symbols : Nat
  max_repair_symbols : Nat
  seq_counter : Nat
  messages_start_seq : Nat
  messages : List (Option (Nat × List (Option Bytes)))
  deriving DecidableEq, Repr

/-- The ReceiveFecMessage enum; D is the decoder type of the opaque codec. -/
inductive ReceiveFecMessage (D : Type) where
  | NotSeen
  | Receiving (decoder : D)
  | Received
  deriving DecidableEq, Repr

/-- State of a ChannelType::ReceiveFecReliable channel. -/
structure ReceiveFecSt (D : Type) where
  messages_start_seq : Nat
  messages : List (ReceiveFecMessage D)
  deriving DecidableEq, Repr

/-- Modelled from the spec: the raptor_code source-block decoder lives in an
external crate, not under src/; per the codec contract of spec section 6 it
is constructed from the source-symbol count, accepts indexed symbols,
exposes a fully-specified predicate, and decodes to the requested length
once fully specified (so the unwrap in the source never fails). -/
structure FecDecoder (D : Type) where
  newDecoder : Nat → D
  pushSymbol : D → Bytes → Nat → D
  fullySpecified : D → Bool
  decodeBlock : D → Nat → Bytes

/-- Modelled from the spec: raptor_code::encode_source_block of the external
crate returns the encoded symbols and the source-symbol count. -/
abbrev FecEncoder := Bytes → Nat → Nat → (List Bytes × Nat)

/-- The ChannelType enum. -/
inductive ChannelType (D : Type) where
  | SendUnreliable
  | ReceiveUnreliable
  | SendReliable (st : SendReliableSt)
  | ReceiveReliable (st : ReceiveReliableSt)
  | SendFecReliable (st : SendFecSt)
  | ReceiveFecReliable (st : ReceiveFecSt D)
  deriving DecidableEq, Repr

/-- The Channel struct. -/
structure Channel (D : Type) where
  addr : Nat
  channel_id : Nat
  channel_type : ChannelType D
  deriving DecidableEq, Repr

/-- The ChannelConfig enum (resend_threshhold f32 omitted: it only feeds the
abstracted floating-point resend deadline). -/
inductive ChannelConfig where
  | SendUnreliable
  | ReceiveUnreliable
  | SendReliable
  | ReceiveReliable
  | SendFecReliable (max_data_symbols max_repair_symbols : Nat)
  | ReceiveFecReliable
  deriving DecidableEq, Repr

/-- Channel::new. -/
def channelNew (D : Type) (config : ChannelConfig) (channel_id addr : Nat) : Channel D :=
  { addr, channel_id,
    channel_type :=
      match config with
      | .SendUnreliable => .SendUnreliable
      | .ReceiveUnreliable => .ReceiveUnreliable
      | .SendReliable => .SendReliable ⟨0, 0, []⟩
      | .ReceiveReliable => .ReceiveReliable ⟨[], 0, []⟩
      | .SendFecReliable mds mrs => .SendFecReliable ⟨mds, mrs, 0, 0, []⟩
      | .ReceiveFecReliable => .ReceiveFecReliable ⟨0, []⟩ }

/-- The front-trim loop of the SendReliable ack arm and of the FEC
whole-message ack arm: pop while the front slot is None, incrementing the
start sequence. -/
def trimNone {α : Type} : List (Option α) → Nat → List (Option α) × Nat
  | [], s => ([], s)
  | none :: rest, s => trimNone rest (s + 1)
  | some x :: rest, s => (some x :: rest, s)

/-- The trim loop of the FEC single-symbol ack arm as written in the source:
it pops while the front slot is Some, i.e. while the front message is still
in flight. -/
def trimSome {α : Type} : List (Option α) → Nat → List (Option α) × Nat
  | [], s => ([], s)
  | some _ :: rest, s => trimSome rest (s + 1)
  | none :: rest, s => (none :: rest, s)

/-- The trim loop of the ReceiveReliable arm as written in the source: it
pops while the front slot is false, i.e. while the front sequence has not
been delivered. -/
def trimFalse : List Bool → Nat → List Bool × Nat
  | [], s => ([], s)
  | false :: rest, s => trimFalse rest (s + 1)
  | true :: rest, s => (true :: rest, s)

/-- The trim loop of the ReceiveFecReliable arm: pop while the front slot is
Received. -/
def trimReceived {D : Type} : List (ReceiveFecMessage D) → Nat → List (ReceiveFecMessage D) × Nat
  | .Received :: rest, s => trimReceived rest (s + 1)
  | l, s => (l, s)

/-- The grow-until-index-exists loops: push the padding element until the
ring has a slot at index i. -/
def growTo {α : Type} (pad : α) (l : List α) (i : Nat) : List α :=
  l ++ List.replicate (i + 1 - l.length) pad

/-- The shared mark-received-and-trim step of the SendReliable ack arm and
the FEC whole-message ack arm: ignore sequences below the ring start or
beyond the ring, otherwise clear the slot and pop None slots off the front.
Returns the new start sequence and ring. -/
def ackClear {α : Type} (seq start : Nat) (L : List (Option α)) :
    Nat × List (Option α) :=
  if seq < start then (start, L)
  else
    match L.get? (seq - start) with
    | none => (start, L)
    | some _ =>
      ((trimNone (L.set (seq - start) none) start).2,
       (trimNone (L.set (seq - start) none) start).1)

/-- The SendReliable ack arm once the 8-byte sequence is parsed. -/
def srAckStep (st : SendReliableSt) (seq : Nat) : SendReliableSt :=
  { st with
    messages_start_seq := (ackClear seq st.messages_start_seq st.messages).1,
    messages := (ackClear seq st.messages_start_seq st.messages).2 }

/-- Channel::receive, SendReliable arm (an ack listener): parse the 8-byte
sequence, mark the slot as received, trim None slots off the front. -/
def sendReliableReceive (st : SendReliableSt) (message : Bytes) : SendReliableSt :=
  match listGet message 0 8 with
  | none => st
  | some bytes => srAckStep st (beNat bytes)

/-- The ReceiveReliable arm once the 8-byte sequence is parsed: queue an
ack, suppress already-trimmed and already-seen sequences, grow the seen
ring, mark the slot, run the source's trim loop.  The Bool reports whether
the payload is delivered. -/
def rrStep (st : ReceiveReliableSt) (seq : Nat) : ReceiveReliableSt × Bool :=
  if seq < st.received_start_seq then
    (⟨st.acks_to_send ++ [seq], st.received_start_seq, st.received⟩, false)
  else
    if (growTo false st.received (seq - st.received_start_seq)).getD
        (seq - st.received_start_seq) false then
      (⟨st.acks_to_send ++ [seq], st.received_start_seq,
        growTo false st.received (seq - st.received_start_seq)⟩, false)
    else
      (⟨st.acks_to_send ++ [seq],
        (trimFalse ((growTo false st.received (seq - st.received_start_seq)).set
          (seq - st.received_start_seq) true) st.received_start_seq).2,
        (trimFalse ((growTo false st.received (seq - st.received_start_seq)).set
          (seq - st.received_start_seq) true) st.received_start_seq).1⟩, true)

/-- Channel::receive, ReceiveReliable arm: parse the 8-byte sequence, run
rrStep, and emit the payload after the header exactly when the sequence is
newly seen. -/
def receiveReliableReceive (st : ReceiveReliableSt) (message : Bytes) :
    ReceiveReliableSt × List Bytes :=
  match listGet message 0 8 with
  | none => (st, [])
  | some bytes =>
    ((rrStep st (beNat bytes)).1,
     if (rrStep st (beNat bytes)).2 then [message.drop 8] else [])

/-- The FEC whole-message ack arm once the sequence is parsed. -/
def fecWholeAckStep (st : SendFecSt) (seq : Nat) : SendFecSt :=
  { st with
    messages_start_seq := (ackClear seq st.messages_start_seq st.messages).1,
    messages := (ackClear seq st.messages_start_seq st.messages).2 }

/-- The body of the FEC single-symbol ack arm on an in-flight slot: clear
the symbol sub-slot; when no symbol remains, clear the whole slot and run
the source's trim loop trimSome (which pops in-flight Some slots). -/
def fecSymbolAckSlot (st : SendFecSt) (seq symbol_index : Nat)
    (entry : Nat × List (Option Bytes)) : SendFecSt :=
  match entry.2.get? symbol_index with
  | none => st
  | some _ =>
    if (entry.2.set symbol_index none).any (fun e => e.isSome) then
      { st with
        messages := st.messages.set (seq - st.messages_start_seq)
          (some (entry.1, entry.2.set symbol_index none)) }
    else
      { st with
        messages_start_seq :=
          (trimSome (st.messages.set (seq - st.messages_start_seq) none)
            st.messages_start_seq).2,
        messages :=
          (trimSome (st.messages.set (seq - st.messages_start_seq) none)
            st.messages_start_seq).1 }

/-- The FEC single-symbol ack arm once sequence and symbol index are
parsed. -/
def fecSymbolAckStep (st : SendFecSt) (seq symbol_index : Nat) : SendFecSt :=
  if seq < st.messages_start_seq then st
  else
    match st.messages.get? (seq - st.messages_start_seq) with
    | some (some entry) => fecSymbolAckSlot st seq symbol_index entry
    | _ => st

/-- Channel::receive, SendFecReliable arm: tag 0 is a whole-message ack, tag
1 a single-symbol ack; any other first byte is ignored. -/
def sendFecReceive (st : SendFecSt) (message : Bytes) : SendFecSt :=
  match message.head? with
  | some 0 =>
    match listGet message 1 9 with
    | none => st
    | some seqBytes => fecWholeAckStep st (beNat seqBytes)
  | some 1 =>
    match listGet message 1 9, message.get? 9 with
    | some seqBytes, some symbol_index =>
      fecSymbolAckStep st (beNat seqBytes) symbol_index
    | _, _ => st
  | _ => st

/-- Channel::receive, ReceiveFecReliable arm.  Returns the new channel state,
the delivered messages and the packets staged and sent (to the channel's
peer address).  A sequence below the start of the ring answers with a
whole-message ack; otherwise a single-symbol ack is sent, the ring is grown
with NotSeen, a NotSeen slot is initialized to a fresh decoder, a Received
slot answers with another whole-message ack, and a fully specified decoder
delivers the block, marks the slot Received, acks the whole message and
trims Received slots off the front. -/
def fecDecodeStep {D : Type} (dec : FecDecoder D) (max_message_size channel_id : Nat)
    (start : Nat) (messages : List (ReceiveFecMessage D)) (index seq_id : Nat)
    (symAck : Bytes) (d : D) (source_block_length : Nat) :
    Except Error (ReceiveFecSt D × List Bytes × List Bytes) :=
  if dec.fullySpecified d then
    match sendChannelPacket max_message_size channel_id [[0], natToBeBytes 8 seq_id] with
    | .error e => .error e
    | .ok ack =>
      .ok (⟨(trimReceived (messages.set index .Received) start).2,
            (trimReceived (messages.set index .Received) start).1⟩,
           [dec.decodeBlock d source_block_length], [symAck, ack])
  else
    .ok (⟨start, messages.set index (.Receiving d)⟩, [], [symAck])

/-- Channel::receive, ReceiveFecReliable arm.  Returns the new channel
state, the delivered messages and the packets staged and sent.  A sequence
below the start of the ring answers with a whole-message ack; otherwise a
single-symbol ack is sent, the ring is grown with NotSeen, a NotSeen slot
is initialized to a fresh decoder, a Received slot answers with another
whole-message ack, and the symbol is pushed into the decoder by
fecDecodeStep, which on full specification decodes the block, marks the
slot Received, acks the whole message and trims Received slots off the
front. -/
def receiveFecReceive {D : Type} (dec : FecDecoder D) (max_message_size channel_id : Nat)
    (st : ReceiveFecSt D) (message : Bytes) :
    Except Error (ReceiveFecSt D × List Bytes × List Bytes) :=
  match listGet message 0 8, listGet message 8 12, listGet message 12 13,
      listGet message 13 15 with
  | some seqBytes, some nssBytes, some idxBytes, some lenBytes =>
    let seq_id := beNat seqBytes
    let num_source_symbols := beNat nssBytes
    let symbol_index := beNat idxBytes
    let source_block_length := beNat lenBytes
    if seq_id < st.messages_start_seq then
      match sendChannelPacket max_message_size channel_id [[0], natToBeBytes 8 seq_id] with
      | .error e => .error e
      | .ok ack => .ok (st, [], [ack])
    else
      match sendChannelPacket max_message_size channel_id
          [[1], natToBeBytes 8 seq_id, [symbol_index]] with
      | .error e => .error e
      | .ok symAck =>
        let index := seq_id - st.messages_start_seq
        let messages := growTo .NotSeen st.messages index
        match messages.getD index .NotSeen with
        | .Received =>
          match sendChannelPacket max_message_size channel_id
              [[0], natToBeBytes 8 seq_id] with
          | .error e => .error e
          | .ok ack => .ok (⟨st.messages_start_seq, messages⟩, [], [symAck, ack])
        | .NotSeen =>
          fecDecodeStep dec max_message_size channel_id st.messages_start_seq
            messages index seq_id symAck
            (dec.pushSymbol (dec.newDecoder num_source_symbols) (message.drop 15)
              symbol_index)
            source_block_length
        | .Receiving d =>
          fecDecodeStep dec max_message_size channel_id st.messages_start_seq
            messages index seq_id symAck
            (dec.pushSymbol d (message.drop 15) symbol_index)
            source_block_length
  | _, _, _, _ => .ok (st, [], [])

/-- Channel::receive: dispatch on the channel type.  Returns the new channel,
the delivered application messages and the packets sent. -/
def channelReceive {D : Type} (dec : FecDecoder D) (max_message_size : Nat)
    (ch : Channel D) (message : Bytes) :
    Except Error (Channel D × List Bytes × List Bytes) :=
  match ch.channel_type with
  | .SendUnreliable => .ok (ch, [], [])
  | .ReceiveUnreliable => .ok (ch, [message], [])
  | .SendReliable st =>
    .ok ({ ch with channel_type := .SendReliable (sendReliableReceive st message) }, [], [])
  | .ReceiveReliable st =>
    let p := receiveReliableReceive st message
    .ok ({ ch with channel_type := .ReceiveReliable p.1 }, p.2, [])
  | .SendFecReliable st =>
    .ok ({ ch with channel_type := .SendFecReliable (sendFecReceive st message) }, [], [])
  | .ReceiveFecReliable st =>
    match receiveFecReceive dec max_message_size ch.channel_id st message with
    | .error e => .error e
    | .ok r => .ok ({ ch with channel_type := .ReceiveFecReliable r.1 }, r.2.1, r.2.2)

/-- Sequential effectful map over a list in the Except monad, mirroring the
for loops of the source that stage and send one packet per element and
propagate the first error. -/
def exceptMapM {α β ε : Type} (f : α → Except ε β) : List α → Except ε (List β)
  | [] => .ok []
  | a :: l =>
    match f a with
    | .error e => .error e
    | .ok b =>
      match exceptMapM f l with
      | .error e => .error e
      | .ok r => .ok (b :: r)

/-- The per-symbol packet body built by the SendFecReliable send arm:
8-byte sequence, 4-byte source-symbol count, 1-byte symbol index (a u8
cast), 2-byte original message length (a u16 cast), then the symbol bytes.
These writes go to a plain Vec and cannot fail. -/
def fecPacket (seq num_source_symbols idx msgLen : Nat) (symbol : Bytes) : Bytes :=
  natToBeBytes 8 seq ++ natToBeBytes 4 num_source_symbols ++ [idx % 256] ++
    natToBeBytes 2 msgLen ++ symbol

/-- Channel::send: stage the channel prefix, then dispatch.  Receive-type
channels fail with SendOnReceiveChannel; SendReliable appends the sequence
and payload, records the in-flight copy and bumps the counter;
SendFecReliable encodes the block and transmits one packet per symbol,
recording all packet bodies in the new ring slot. -/
def channelSend {D : Type} (enc : FecEncoder) (max_message_size now : Nat)
    (ch : Channel D) (message : Bytes) : Except Error (Channel D × List Bytes) :=
  match socketWriteE max_message_size [] [(ch.channel_id + 3) % 256] with
  | .error e => .error e
  | .ok _ =>
    match ch.channel_type with
    | .ReceiveUnreliable => .error .SendOnReceiveChannel
    | .ReceiveReliable _ => .error .SendOnReceiveChannel
    | .ReceiveFecReliable _ => .error .SendOnReceiveChannel
    | .SendUnreliable =>
      match sendChannelPacket max_message_size ch.channel_id [message] with
      | .error e => .error e
      | .ok b => .ok (ch, [b])
    | .SendReliable st =>
      match sendChannelPacket max_message_size ch.channel_id
          [natToBeBytes 8 st.seq_counter, message] with
      | .error e => .error e
      | .ok b =>
        let st' : SendReliableSt :=
          { st with seq_counter := st.seq_counter + 1,
                    messages := st.messages ++ [some (now, message)] }
        .ok ({ ch with channel_type := .SendReliable st' }, [b])
    | .SendFecReliable st =>
      let encoded := enc message st.max_data_symbols st.max_repair_symbols
      let pkts := encoded.1.enum.map fun p =>
        fecPacket st.seq_counter encoded.2 p.1 message.length p.2
      match exceptMapM
          (fun p => sendChannelPacket max_message_size ch.channel_id [p]) pkts with
      | .error e => .error e
      | .ok sent =>
        let st' : SendFecSt :=
          { st with seq_counter := st.seq_counter + 1,
                    messages := st.messages ++ [some (now, pkts.map some)] }
        .ok ({ ch with channel_type := .SendFecReliable st' }, sent)

/-- The resend loop of Channel::update for SendReliable: walk the ring
carrying the absolute sequence; a due in-flight slot is rebuilt, resent and
restamped.  The predicate due abstracts the floating-point comparison of the
slot's last-sent age against average_ping times resend_threshhold. -/
def tickSendReliableLoop (due : Nat → Bool) (max_message_size channel_id now : Nat) :
    List (Option (Nat × Bytes)) → Nat →
    Except Error (List (Option (Nat × Bytes)) × List Bytes)
  | [], _ => .ok ([], [])
  | none :: rest, seq =>
    match tickSendReliableLoop due max_message_size channel_id now rest (seq + 1) with
    | .error e => .error e
    | .ok r => .ok (none :: r.1, r.2)
  | some entry :: rest, seq =>
    if due entry.1 then
      match sendChannelPacket max_message_size channel_id
          [natToBeBytes 8 seq, entry.2] with
      | .error e => .error e
      | .ok p =>
        match tickSendReliableLoop due max_message_size channel_id now rest (seq + 1) with
        | .error e => .error e
        | .ok r => .ok (some (now, entry.2) :: r.1, p :: r.2)
    else
      match tickSendReliableLoop due max_message_size channel_id now rest (seq + 1) with
      | .error e => .error e
      | .ok r => .ok (some entry :: r.1, r.2)

/-- The resend loop of Channel::update for SendFecReliable: a due in-flight
slot retransmits every still-present symbol packet and is restamped. -/
def tickSendFecLoop (due : Nat → Bool) (max_message_size channel_id now : Nat) :
    List (Option (Nat × List (Option Bytes))) →
    Except Error (List (Option (Nat × List (Option Bytes))) × List Bytes)
  | [] => .ok ([], [])
  | none :: rest =>
    match tickSendFecLoop due max_message_size channel_id now rest with
    | .error e => .error e
    | .ok r => .ok (none :: r.1, r.2)
  | some entry :: rest =>
    if due entry.1 then
      match exceptMapM
          (fun pkt => sendChannelPacket max_message_size channel_id [pkt])
          (entry.2.filterMap id) with
      | .error e => .error e
      | .ok sent =>
        match tickSendFecLoop due max_message_size channel_id now rest with
        | .error e => .error e
        | .ok r => .ok (some (now, entry.2) :: r.1, sent ++ r.2)
    else
      match tickSendFecLoop due max_message_size channel_id now rest with
      | .error e => .error e
      | .ok r => .ok (some entry :: r.1, r.2)

/-- Channel::update: retransmission for the send-reliable variants (gated on
average_ping being present), draining of queued acks for ReceiveReliable,
and a no-op otherwise. -/
def channelTick {D : Type} (due : Nat → Bool) (ping : Option Nat)
    (max_message_size now : Nat) (ch : Channel D) :
    Except Error (Channel D × List Bytes) :=
  match ch.channel_type with
  | .SendUnreliable => .ok (ch, [])
  | .ReceiveUnreliable => .ok (ch, [])
  | .ReceiveFecReliable _ => .ok (ch, [])
  | .SendReliable st =>
    match ping with
    | none => .ok (ch, [])
    | some _ =>
      match tickSendReliableLoop due max_message_size ch.channel_id now
          st.messages st.messages_start_seq with
      | .error e => .error e
      | .ok r =>
        .ok ({ ch with channel_type := .SendReliable ({ st with messages := r.1 }) }, r.2)
  | .ReceiveReliable st =>
    match exceptMapM
        (fun seq => sendChannelPacket max_message_size ch.channel_id [natToBeBytes 8 seq])
        st.acks_to_send with
    | .error e => .error e
    | .ok sent =>
      .ok ({ ch with channel_type := .ReceiveReliable ({ st with acks_to_send := [] }) },
           sent)
  | .SendFecReliable st =>
    match ping with
    | none => .ok (ch, [])
    | some _ =>
      match tickSendFecLoop due max_message_size ch.channel_id now st.messages with
      | .error e => .error e
      | .ok r =>
        .ok ({ ch with channel_type := .SendFecReliable ({ st with messages := r.1 }) }, r.2)

/-- The Connection struct (Instants as Nat milliseconds). -/
structure Connection (D : Type) where
  addr : Nat
  other_instance : Option Bytes
  creation_time : Nat
  ping_memory : List Nat
  average_ping : Option Nat
  last_received_keep_alive : Nat
  last_sent_keep_alive : Nat
  channels : List (Channel D)
  deriving DecidableEq, Repr

/-- The ClientConfig struct (heartbeat_interval and timeout durations are
not needed by the per-datagram step embedded here). -/
structure ClientConfig where
  max_message_size : Nat
  ping_memory_length : Nat
  listen : Bool
  channels : List ChannelConfig
  deriving DecidableEq, Repr

/-- The connection table of the Client, keyed by peer address. -/
abbrev ConnTable (D : Type) := List (Nat × Connection D)

/-- HashMap::get on the connection table. -/
def lookupConn {D : Type} (conns : ConnTable D) (addr : Nat) : Option (Connection D) :=
  (conns.find? fun p => p.1 == addr).map fun p => p.2

/-- Replacing the entry for a present key. -/
def setConn {D : Type} (conns : ConnTable D) (addr : Nat) (c : Connection D) : ConnTable D :=
  conns.map fun p => if p.1 == addr then (addr, c) else p

/-- HashMap::remove. -/
def removeConn {D : Type} (conns : ConnTable D) (addr : Nat) : ConnTable D :=
  conns.filter fun p => ¬ p.1 == addr

/-- Connection::new: emits the initial heartbeat (the elapsed time of the
just-created creation instant is 0 ms) and builds the per-channel states
from the config, casting each index to u8 as the source does. -/
def connectionNew (D : Type) (config : ClientConfig) (addr : Nat) (inst : Bytes)
    (now : Nat) : Except Error (Connection D × Bytes) :=
  match composeHeartbeat config.max_message_size inst 0 with
  | .error e => .error e
  | .ok hb =>
    .ok ({ addr,
           other_instance := none,
           creation_time := now,
           ping_memory := [],
           average_ping := none,
           last_received_keep_alive := now,
           last_sent_keep_alive := now,
           channels := config.channels.enum.map fun p =>
             channelNew D p.2 (p.1 % 256) addr }, hb)

/-- The time_response update of Client::update: evict the front of
ping_memory when it is at capacity, push the new sample, and store the
integer mean of the buffer as average_ping. -/
def pingStep (ping_memory_length : Nat) (ping_memory : List Nat) (sample : Nat) :
    List Nat × Nat :=
  let mem := if ping_memory_length ≤ ping_memory.length then ping_memory.tail
             else ping_memory
  let mem := mem ++ [sample]
  (mem, mem.foldl (fun p e => p + e) 0 / mem.length)

/-- Failure of a single Client::update step: a propagated library error, or
an arithmetic overflow panic (the unchecked u128 subtraction). -/
inductive StepFail where
  | err (e : Error)
  | overflow
  deriving DecidableEq, Repr

/-- Lift a library error into a step failure. -/
def liftE {α : Type} : Except Error α → Except StepFail α
  | .ok a => .ok a
  | .error e => .error (.err e)

/-- The channel_message delivery of Client::update: bounds-checked channel
lookup, Channel::receive, a Message event per delivered payload. -/
def applyChannelMessage {D : Type} (dec : FecDecoder D) (max_message_size origin : Nat)
    (conn : Connection D) (cm : Option (Nat × Bytes)) :
    Except Error (Connection D × List Event × List (Nat × Bytes)) :=
  match cm with
  | none => .ok (conn, [], [])
  | some (channel_id, msg) =>
    match conn.channels.get? channel_id with
    | none => .ok (conn, [], [])
    | some ch =>
      match channelReceive dec max_message_size ch msg with
      | .error e => .error e
      | .ok r =>
        .ok ({ conn with channels := conn.channels.set channel_id r.1 },
             r.2.1.map fun m => Event.Message origin channel_id m,
             r.2.2.map fun b => (origin, b))

/-- The time_response handling of Client::update: the source computes
creation_time.elapsed().as_millis() - time with an unchecked u128
subtraction, so a timestamp larger than the elapsed time is an overflow
panic; otherwise the RTT sample is pushed through pingStep. -/
def applyTimeResponse {D : Type} (ping_memory_length now : Nat) (conn : Connection D)
    (tr : Option Nat) : Except StepFail (Connection D) :=
  match tr with
  | none => .ok conn
  | some time =>
    match checkedSub (now - conn.creation_time) time with
    | none => .error .overflow
    | some diff =>
      let p := pingStep ping_memory_length conn.ping_memory diff
      .ok { conn with ping_memory := p.1, average_ping := some p.2 }

/-- The heartbeat_data handling of Client::update: a first heartbeat stores
the peer instance; a differing instance removes the Connection and enqueues
Disconnected(origin, OriginChangedInstance); in every case the received
timestamp bytes are echoed back as a tag-2 packet. -/
def heartbeatStep {D : Type} (max_message_size : Nat) (conns : ConnTable D)
    (origin : Nat) (conn : Connection D) (inst : Bytes) (time : Bytes) :
    Except Error (ConnTable D × List Event × List (Nat × Bytes)) :=
  let r :=
    match conn.other_instance with
    | none => (setConn conns origin { conn with other_instance := some inst }, [])
    | some other_instance =>
      if inst ≠ other_instance then
        (removeConn conns origin, [Event.Disconnection origin .OriginChangedInstance])
      else (conns, [])
  match composeEcho max_message_size time with
  | .error e => .error e
  | .ok echo => .ok (r.1, r.2, [(origin, echo)])

/-- The tail of Client::update for one valid datagram once a Connection is
at hand: stamp last_received_keep_alive, deliver the channel frame, apply
the RTT sample, then handle the heartbeat data.  events0 and sent0 carry a
Connection event and initial heartbeat when the peer was just inserted. -/
def processWithConn {D : Type} (dec : FecDecoder D) (config : ClientConfig)
    (conns : ConnTable D) (origin now : Nat) (conn : Connection D)
    (events0 : List Event) (sent0 : List (Nat × Bytes))
    (cm : Option (Nat × Bytes)) (tr : Option Nat) (hb : Option (Bytes × Bytes)) :
    Except StepFail (ConnTable D × List Event × List (Nat × Bytes)) :=
  match applyChannelMessage dec config.max_message_size origin
      { conn with last_received_keep_alive := now } cm with
  | .error e => .error (.err e)
  | .ok r1 =>
    match applyTimeResponse config.ping_memory_length now r1.1 tr with
    | .error f => .error f
    | .ok conn2 =>
      match hb with
      | none => .ok (setConn conns origin conn2, events0 ++ r1.2.1, sent0 ++ r1.2.2)
      | some hbData =>
        match heartbeatStep config.max_message_size (setConn conns origin conn2)
            origin conn2 hbData.1 hbData.2 with
        | .error e => .error (.err e)
        | .ok r2 =>
          .ok (r2.1, events0 ++ r1.2.1 ++ r2.2.1, sent0 ++ r1.2.2 ++ r2.2.2)

/-- The body of Client::update for one valid datagram: locate the
Connection, or insert a fresh one when listening (enqueueing a Connection
event and sending the initial heartbeat), or reply with a Close packet and
continue the drain when not listening. -/
def processValid {D : Type} (dec : FecDecoder D) (config : ClientConfig) (inst : Bytes)
    (conns : ConnTable D) (origin now : Nat)
    (cm : Option (Nat × Bytes)) (tr : Option Nat) (hb : Option (Bytes × Bytes)) :
    Except StepFail (ConnTable D × List Event × List (Nat × Bytes)) :=
  match lookupConn conns origin with
  | some conn => processWithConn dec config conns origin now conn [] [] cm tr hb
  | none =>
    if config.listen then
      match connectionNew D config origin inst now with
      | .error e => .error (.err e)
      | .ok r =>
        processWithConn dec config (conns ++ [(origin, r.1)]) origin now r.1
          [Event.Connection origin] [(origin, r.2)] cm tr hb
    else
      match composeClose config.max_message_size with
      | .error e => .error (.err e)
      | .ok c => .ok (conns, [], [(origin, c)])

/-- The channel-tag arm of the parse in Client::update: a first byte of at
least 3 names channel id tag - 3 (a u8 subtraction); the frame is recorded
for dispatch only when the id is within the configured channel range. -/
def parseChannelMessage (numChannels : Nat) (message : Bytes) : Option (Nat × Bytes) :=
  match message.head? with
  | none => none
  | some tag =>
    if tag < 3 then none
    else if tag - 3 < numChannels then some (tag - 3, message.drop 1)
    else none

/-- One iteration of the receive drain of Client::update: parse the type
tag of a single inbound datagram and process it.  Returns the new
connection table, the enqueued events and the packets sent, or a step
failure (a propagated error or the overflow panic of the tag-2 handler). -/
def processDatagram {D : Type} (dec : FecDecoder D) (config : ClientConfig)
    (inst : Bytes) (conns : ConnTable D) (origin : Nat) (message : Bytes) (now : Nat) :
    Except StepFail (ConnTable D × List Event × List (Nat × Bytes)) :=
  match message.head? with
  | none => .ok (conns, [], [])
  | some 0 =>
    match listGet message 1 17, listGet message 17 33 with
    | some instBytes, some timeBytes =>
      processValid dec config inst conns origin now none none (some (instBytes, timeBytes))
    | _, _ => .ok (conns, [], [])
  | some 1 =>
    if (lookupConn conns origin).isSome then
      .ok (removeConn conns origin, [Event.Disconnection origin .Other], [])
    else
      .ok (conns, [], [])
  | some 2 =>
    match listGet message 1 17 with
    | some timeBytes =>
      processValid dec config inst conns origin now none (some (beNat timeBytes)) none
    | none => .ok (conns, [], [])
  | some _ =>
    match parseChannelMessage config.channels.length message with
    | some cm => processValid dec config inst conns origin now (some cm) none none
    | none => .ok (conns, [], [])

/-- The channel-count guard of Client::bind: more than u8::MAX - 3 = 252
configured channels is rejected with TooManyChannels. -/
def bindCheck (config : ClientConfig) : Except Error Unit :=
  if 255 - 3 < config.channels.length then .error .TooManyChannels else .ok ()

/-- Client::send: look up the peer, bounds-check the channel id, delegate to
Channel::send.  Returns the updated table and the packets sent. -/
def clientSend {D : Type} (enc : FecEncoder) (max_message_size now : Nat)
    (conns : ConnTable D) (addr channel_id : Nat) (message : Bytes) :
    Except Error (ConnTable D × List Bytes) :=
  match lookupConn conns addr with
  | none => .error .AddressNotConnected
  | some conn =>
    match conn.channels.get? channel_id with
    | none => .error .InvalidChannelId
    | some ch =>
      match channelSend enc max_message_size now ch message with
      | .error e => .error e
      | .ok r =>
        .ok (setConn conns addr
               { conn with channels := conn.channels.set channel_id r.1 },
             r.2)

/-- Client::send_single: the source inspects the first two keys of the
connection table and fails with SendSingleInvalid unless exactly one
connection exists, forwarding to that peer otherwise. -/
def clientSendSingle {D : Type} (enc : FecEncoder) (max_message_size now : Nat)
    (conns : ConnTable D) (channel_id : Nat) (message : Bytes) :
    Except Error (ConnTable D × List Bytes) :=
  match conns with
  | [] => .error .SendSingleInvalid
  | [p] => clientSend enc max_message_size now conns p.1 channel_id message
  | _ => .error .SendSingleInvalid

/-- N-fold application of a state transformer, for the ack idempotence
claim. -/
def iterateApply {α : Type} (f : α → α) : Nat → α → α
  | 0, a => a
  | n + 1, a => iterateApply f n (f a)

/-- The sequence number an inbound reliable frame is attributed to: the
first 8 bytes, big-endian. -/
def frameSeq (message : Bytes) : Option Nat := (listGet message 0 8).map beNat

/-- How many times a run of a ReceiveReliable channel over a list of inbound
frames emits an application message for sequence number s. -/
def rrEmitCount (st : ReceiveReliableSt) (frames : List Bytes) (s : Nat) : Nat :=
  match frames with
  | [] => 0
  | m :: rest =>
    (if frameSeq m = some s ∧ (receiveReliableReceive st m).2 ≠ [] then 1 else 0) +
      rrEmitCount (receiveReliableReceive st m).1 rest s

/-- How many times a run of a ReceiveFecReliable channel over a list of
inbound frames emits an application message for sequence number s; the run
stops when a step fails, as the receive drain of Client::update does. -/
def fecEmitCount {D : Type} (dec : FecDecoder D) (max_message_size channel_id : Nat)
    (st : ReceiveFecSt D) (frames : List Bytes) (s : Nat) : Nat :=
  match frames with
  | [] => 0
  | m :: rest =>
    match receiveFecReceive dec max_message_size channel_id st m with
    | .error _ => 0
    | .ok r =>
      (if frameSeq m = some s ∧ r.2.1 ≠ [] then 1 else 0) +
        fecEmitCount dec max_message_size channel_id r.1 rest s

/-- Sequence s can no longer be emitted by a ReceiveReliable channel: it
lies below the start of the ring, or its slot is marked seen. -/
def rrBlocked (st : ReceiveReliableSt) (s : Nat) : Prop :=
  s < st.received_start_seq ∨
    st.received.get? (s - st.received_start_seq) = some true

/-- Sequence s can no longer be emitted by a ReceiveFecReliable channel: it
lies below the start of the ring, or its slot is Received. -/
def fecBlocked {D : Type} (st : ReceiveFecSt D) (s : Nat) : Prop :=
  s < st.messages_start_seq ∨
    st.messages.get? (s - st.messages_start_seq) = some .Received

section Lemmas

/-- Unfolding equation for socketWriteE in the error case. -/
theorem socketWriteE_error {max_message_size : Nat} {b c : Bytes} {e : Error}
    (h : socketWriteE max_message_size b c = .error e) : e = .MessageTooLong := by
  simp only [socketWriteE, socketWrite] at h
  split at h <;> rename_i heq
  · split at heq <;> simp_all
  · simp_all

/-- Unfolding equation for socketWriteE in the success case. -/
theorem socketWriteE_ok {max_message_size : Nat} {b c r : Bytes}
    (h : socketWriteE max_message_size b c = .ok r) : r = b ++ c := by
  simp only [socketWriteE, socketWrite] at h
  split at h <;> rename_i heq
  · simp_all
  · split at heq <;> simp_all

end Lemmas

/-- C9: Socket.write(bytes) succeeds exactly when the staged length plus
bytes.len() does not exceed max_message_size, in which case the bytes are
appended; when it fails with MessageTooLong the staging buffer is left
completely unchanged. -/
theorem socket_write_atomic (max_message_size : Nat) (out_buffer bytes : Bytes)
    (h : out_buffer.length ≤ max_message_size) :
    ((socketWrite max_message_size out_buffer bytes).2 = none ↔
      out_buffer.length + bytes.length ≤ max_message_size) ∧
    ((socketWrite max_message_size out_buffer bytes).2 = none →
      (socketWrite max_message_size out_buffer bytes).1 = out_buffer ++ bytes) ∧
    ((socketWrite max_message_size out_buffer bytes).2 ≠ none →
      (socketWrite max_message_size out_buffer bytes).1 = out_buffer ∧
      (socketWrite max_message_size out_buffer bytes).2 = some .MessageTooLong) := by
  unfold socketWrite
  split <;> rename_i hc <;> refine ⟨?_, ?_, ?_⟩ <;> simp_all <;> omega

/-- Witness for socket_write_atomic at a concrete buffer. -/
theorem socket_write_atomic_witness :
    ((List.length [1, 2] : Nat) ≤ 5) ∧
    ((socketWrite 5 [1, 2] [3, 4]).2 = none ↔
      List.length [1, 2] + List.length [3, 4] ≤ 5) :=
  ⟨by decide, (socket_write_atomic 5 [1, 2] [3, 4] (by decide)).1⟩

/-- C10: an inbound Close datagram (type byte 1) from an address with no
tracked Connection leaves the connection table unchanged, enqueues no event
and transmits nothing, even when listen is true. -/
theorem close_unknown_peer_noop {D : Type} (dec : FecDecoder D) (config : ClientConfig)
    (inst : Bytes) (conns : ConnTable D) (origin : Nat) (rest : Bytes) (now : Nat)
    (h : lookupConn conns origin = none) :
    processDatagram dec config inst conns origin (1 :: rest) now = .ok (conns, [], []) := by
  simp [processDatagram, h]

/-- A concrete decoder instance for evaluating the embedding: remembers the
source-symbol count and counts pushed symbols. -/
def countDecoder : FecDecoder (Nat × Nat) :=
  { newDecoder := fun n => (n, 0),
    pushSymbol := fun d _ _ => (d.1, d.2 + 1),
    fullySpecified := fun d => d.1 ≤ d.2,
    decodeBlock := fun _ len => List.replicate len 0 }

/-- A concrete connection with no state, for evaluating the embedding. -/
def connA : Connection (Nat × Nat) :=
  { addr := 7, other_instance := none, creation_time := 0, ping_memory := [],
    average_ping := none, last_received_keep_alive := 0, last_sent_keep_alive := 0,
    channels := [] }

/-- A concrete client configuration, for evaluating the embedding. -/
def configA : ClientConfig :=
  { max_message_size := 100, ping_memory_length := 16, listen := true, channels := [] }

/-- Witness for close_unknown_peer_noop on an empty connection table. -/
theorem close_unknown_peer_noop_witness :
    lookupConn ([] : ConnTable (Nat × Nat)) 7 = none ∧
    processDatagram countDecoder configA (List.replicate 16 0) [] 7 [1] 5 =
      .ok ([], [], []) :=
  ⟨rfl, close_unknown_peer_noop countDecoder configA (List.replicate 16 0) [] 7 [] 5 rfl⟩

/-- C2 fails on the code: a tag-2 echo whose 16-byte timestamp (here
2 ^ 128 - 1) exceeds the connection's elapsed time (here 5 ms) drives the
unchecked u128 subtraction creation_time.elapsed().as_millis() - time in
Client::update into underflow, an arithmetic overflow panic rather than a
silent discard. -/
theorem tag2_timestamp_overflow_panics :
    processDatagram countDecoder configA (List.replicate 16 0) [(7, connA)] 7
      (2 :: List.replicate 16 255) 5 = .error .overflow := by
  rfl

/-- C1 fails on the code at two places.  First, the ReceiveReliable trim
loop pops while the front slot is false, so after the very first in-order
delivery the front slot of the receive ring is true, i.e. terminal.
Second, the FEC single-symbol-ack completion path trims while the front
slot is Some, so completing the second of two in-flight single-symbol
messages evicts the still-unacked first message and leaves the terminal
None slot at the front of the send ring with base_seq 1. -/
theorem front_trim_violations :
    ((receiveReliableReceive ⟨[], 0, []⟩ [0, 0, 0, 0, 0, 0, 0, 0]).1.received.head? =
      some true) ∧
    (sendFecReceive ⟨4, 3, 2, 0, [some (0, [some [9]]), some (0, [some [8]])]⟩
      [1, 0, 0, 0, 0, 0, 0, 0, 1, 0] = ⟨4, 3, 2, 1, [none]⟩) := by
  exact ⟨rfl, rfl⟩

/-- A stored peer instance tag, for evaluating the embedding. -/
def insA : Bytes := List.replicate 16 1

/-- A different arriving instance tag, for evaluating the embedding. -/
def insB : Bytes := List.replicate 16 2

/-- A concrete echoed timestamp, for evaluating the embedding. -/
def timeA : Bytes := List.replicate 16 3

/-- A concrete connection that has already stored insA as the peer
instance. -/
def connB : Connection (Nat × Nat) := { connA with other_instance := some insA }

/-- C4 fails on the code: when a valid heartbeat arrives whose instance
differs from the stored one, the Connection is removed and the
Disconnection event enqueued, and yet the timestamp is still echoed back as
a tag-2 packet, because the echo at the end of the heartbeat_data block is
unconditional; the claim asserts the echo happens only in the non-mismatch
case. -/
theorem heartbeat_mismatch_still_echoes :
    insB ≠ insA ∧
    processDatagram countDecoder configA insA [(7, connB)] 7
      (0 :: (insB ++ timeA)) 5 =
      .ok ([], [Event.Disconnection 7 .OriginChangedInstance], [(7, 2 :: timeA)]) := by
  exact ⟨by decide, rfl⟩

/-- C4 amended: when a valid heartbeat arrives on a tracked Connection, a
first heartbeat stores the peer instance, a differing instance removes the
Connection and enqueues Disconnected(peer, PeerRestarted), and in every
case, including the mismatch case, the received timestamp is echoed back to
the peer as a tag-2 packet. -/
theorem heartbeat_step_behaviour {D : Type} (max_message_size : Nat)
    (conns : ConnTable D) (origin : Nat) (conn : Connection D) (inst time : Bytes)
    (h : time.length + 1 ≤ max_message_size) :
    heartbeatStep max_message_size conns origin conn inst time =
      .ok ((match conn.other_instance with
            | none => setConn conns origin { conn with other_instance := some inst }
            | some o =>
              if inst ≠ o then removeConn conns origin else conns),
           (match conn.other_instance with
            | none => []
            | some o =>
              if inst ≠ o then [Event.Disconnection origin .OriginChangedInstance]
              else []),
           [(origin, 2 :: time)]) := by
  have h0 : ¬ max_message_size = 0 := by omega
  have hlt : ¬ max_message_size - 1 < time.length := by omega
  have hecho : composeEcho max_message_size time = .ok (2 :: time) := by
    simp [composeEcho, writeChunks, socketWriteE, socketWrite, h0, hlt]
  simp only [heartbeatStep, hecho]
  match conn.other_instance with
  | none => rfl
  | some o =>
    by_cases hne : inst ≠ o <;> simp [hne]

/-- Witness for heartbeat_step_behaviour on a first-time heartbeat. -/
theorem heartbeat_step_behaviour_witness :
    (List.length timeA + 1 ≤ 100) ∧
    heartbeatStep 100 ([] : ConnTable (Nat × Nat)) 7 connA insA timeA =
      .ok ([], [], [(7, 2 :: timeA)]) :=
  ⟨by decide, heartbeat_step_behaviour 100 [] 7 connA insA timeA (by decide)⟩

section PingInvariant

/-- The RTT buffer invariant of one Connection: the buffer is within
capacity and average_ping, when defined, is the integer mean of the
buffer. -/
def pingInv {D : Type} (cap : Nat) (conn : Connection D) : Prop :=
  conn.ping_memory.length ≤ cap ∧
    (conn.average_ping = none ∨
      conn.average_ping =
        some (conn.ping_memory.foldl (fun p e => p + e) 0 / conn.ping_memory.length))

instance {D : Type} (cap : Nat) (conn : Connection D) : Decidable (pingInv cap conn) := by
  unfold pingInv
  infer_instance

/-- The RTT buffer invariant over the whole connection table. -/
def tablePingInv {D : Type} (cap : Nat) (conns : ConnTable D) : Prop :=
  ∀ p ∈ conns, pingInv cap p.2

instance {D : Type} (cap : Nat) (conns : ConnTable D) : Decidable (tablePingInv cap conns) := by
  unfold tablePingInv
  infer_instance

/-- pingStep keeps the buffer within capacity. -/
theorem pingStep_length {cap : Nat} {mem : List Nat} (sample : Nat) (hcap : 1 ≤ cap)
    (hlen : mem.length ≤ cap) : (pingStep cap mem sample).1.length ≤ cap := by
  unfold pingStep
  split <;> rename_i hc <;> simp <;> omega

/-- pingStep stores the integer mean of the new buffer. -/
theorem pingStep_avg (cap : Nat) (mem : List Nat) (sample : Nat) :
    (pingStep cap mem sample).2 =
      (pingStep cap mem sample).1.foldl (fun p e => p + e) 0 /
        (pingStep cap mem sample).1.length := rfl

/-- pingStep evicts the front exactly when the buffer is at capacity, then
appends the sample. -/
theorem pingStep_shape (cap : Nat) (mem : List Nat) (sample : Nat) :
    (pingStep cap mem sample).1 =
      (if cap ≤ mem.length then mem.tail else mem) ++ [sample] := rfl

/-- Membership after replacing a table entry. -/
theorem mem_setConn {D : Type} {conns : ConnTable D} {addr : Nat} {c : Connection D}
    {p : Nat × Connection D} (hp : p ∈ setConn conns addr c) :
    p ∈ conns ∨ p = (addr, c) := by
  unfold setConn at hp
  rcases List.mem_map.1 hp with ⟨q, hq, he⟩
  by_cases h : q.1 == addr
  · right
    rw [if_pos h] at he
    exact he.symm
  · left
    rw [if_neg h] at he
    exact he ▸ hq

/-- Membership after removing a table entry. -/
theorem mem_removeConn {D : Type} {conns : ConnTable D} {addr : Nat}
    {p : Nat × Connection D} (hp : p ∈ removeConn conns addr) : p ∈ conns :=
  (List.mem_filter.1 hp).1

/-- A successful lookup returns a member of the table. -/
theorem lookupConn_pingInv {D : Type} {cap : Nat} {conns : ConnTable D} {addr : Nat}
    {conn : Connection D} (hinv : tablePingInv cap conns)
    (h : lookupConn conns addr = some conn) : pingInv cap conn := by
  unfold lookupConn at h
  cases hf : conns.find? (fun p => p.1 == addr) with
  | none => rw [hf] at h; cases h
  | some q =>
    rw [hf] at h
    cases h
    exact hinv q (List.mem_of_find?_eq_some hf)

/-- applyChannelMessage never touches the RTT fields. -/
theorem applyChannelMessage_ping {D : Type} {dec : FecDecoder D}
    {max_message_size origin : Nat} {conn : Connection D} {cm : Option (Nat × Bytes)}
    {r : Connection D × List Event × List (Nat × Bytes)}
    (h : applyChannelMessage dec max_message_size origin conn cm = .ok r) :
    r.1.ping_memory = conn.ping_memory ∧ r.1.average_ping = conn.average_ping := by
  unfold applyChannelMessage at h
  split at h
  · cases h; exact ⟨rfl, rfl⟩
  · split at h
    · cases h; exact ⟨rfl, rfl⟩
    · split at h
      · cases h
      · cases h; exact ⟨rfl, rfl⟩

/-- applyTimeResponse preserves the RTT buffer invariant. -/
theorem applyTimeResponse_pingInv {D : Type} {cap now : Nat} {conn : Connection D}
    {tr : Option Nat} {conn' : Connection D} (hcap : 1 ≤ cap) (hc : pingInv cap conn)
    (h : applyTimeResponse cap now conn tr = .ok conn') : pingInv cap conn' := by
  unfold applyTimeResponse at h
  split at h
  · cases h; exact hc
  · split at h
    · cases h
    · cases h
      refine ⟨pingStep_length _ hcap hc.1, Or.inr ?_⟩
      exact congrArg some (pingStep_avg _ _ _)

/-- heartbeatStep preserves the table invariant. -/
theorem heartbeatStep_tableInv {D : Type} {cap max_message_size : Nat}
    {conns : ConnTable D} {origin : Nat} {conn : Connection D} {inst time : Bytes}
    {r : ConnTable D × List Event × List (Nat × Bytes)}
    (hinv : tablePingInv cap conns) (hconn : pingInv cap conn)
    (h : heartbeatStep max_message_size conns origin conn inst time = .ok r) :
    tablePingInv cap r.1 := by
  unfold heartbeatStep at h
  split at h
  · split at h
    · cases h
    · cases h
      intro p hp
      rcases mem_setConn hp with hmem | rfl
      · exact hinv p hmem
      · exact hconn
  · split at h
    · split at h
      · cases h
      · cases h
        intro p hp
        exact hinv p (mem_removeConn hp)
    · split at h
      · cases h
      · cases h
        intro p hp
        exact hinv p hp

/-- A freshly created Connection satisfies the invariant. -/
theorem connectionNew_pingInv {D : Type} (cap : Nat) {config : ClientConfig}
    {addr : Nat} {inst : Bytes} {now : Nat} {r : Connection D × Bytes}
    (h : connectionNew D config addr inst now = .ok r) : pingInv cap r.1 := by
  unfold connectionNew at h
  split at h
  · cases h
  · cases h
    exact ⟨Nat.zero_le _, Or.inl rfl⟩

/-- processWithConn preserves the table invariant. -/
theorem processWithConn_tableInv {D : Type} {dec : FecDecoder D} {config : ClientConfig}
    {conns : ConnTable D} {origin now : Nat} {conn : Connection D}
    {events0 : List Event} {sent0 : List (Nat × Bytes)} {cm : Option (Nat × Bytes)}
    {tr : Option Nat} {hb : Option (Bytes × Bytes)}
    {res : ConnTable D × List Event × List (Nat × Bytes)}
    (hcap : 1 ≤ config.ping_memory_length)
    (hinv : tablePingInv config.ping_memory_length conns)
    (hconn : pingInv config.ping_memory_length conn)
    (h : processWithConn dec config conns origin now conn events0 sent0 cm tr hb = .ok res) :
    tablePingInv config.ping_memory_length res.1 := by
  unfold processWithConn at h
  split at h
  · cases h
  · rename_i r1 heq1
    split at h
    · cases h
    · rename_i conn2 heq2
      have hr1 : pingInv config.ping_memory_length r1.1 := by
        obtain ⟨hm, ha⟩ := applyChannelMessage_ping heq1
        unfold pingInv
        rw [hm, ha]
        exact hconn
      have hc2 : pingInv config.ping_memory_length conn2 :=
        applyTimeResponse_pingInv hcap hr1 heq2
      have hset : tablePingInv config.ping_memory_length (setConn conns origin conn2) := by
        intro p hp
        rcases mem_setConn hp with hmem | rfl
        · exact hinv p hmem
        · exact hc2
      split at h
      · cases h
        exact hset
      · split at h
        · cases h
        · rename_i r2 heq3
          cases h
          show tablePingInv config.ping_memory_length r2.1
          exact heartbeatStep_tableInv hset hc2 heq3

/-- processValid preserves the table invariant. -/
theorem processValid_tableInv {D : Type} {dec : FecDecoder D} {config : ClientConfig}
    {inst : Bytes} {conns : ConnTable D} {origin now : Nat}
    {cm : Option (Nat × Bytes)} {tr : Option Nat} {hb : Option (Bytes × Bytes)}
    {res : ConnTable D × List Event × List (Nat × Bytes)}
    (hcap : 1 ≤ config.ping_memory_length)
    (hinv : tablePingInv config.ping_memory_length conns)
    (h : processValid dec config inst conns origin now cm tr hb = .ok res) :
    tablePingInv config.ping_memory_length res.1 := by
  unfold processValid at h
  split at h
  · rename_i conn hlk
    exact processWithConn_tableInv hcap hinv (lookupConn_pingInv hinv hlk) h
  · split at h
    · split at h
      · cases h
      · rename_i rn heq
        have happ : tablePingInv config.ping_memory_length
            (conns ++ [(origin, rn.1)]) := by
          intro p hp
          rcases List.mem_append.1 hp with hmem | hmem
          · exact hinv p hmem
          · rw [List.mem_singleton.1 hmem]
            exact connectionNew_pingInv config.ping_memory_length heq
        exact processWithConn_tableInv hcap happ
          (connectionNew_pingInv config.ping_memory_length heq) h
    · split at h
      · cases h
      · cases h
        exact hinv

/-- processDatagram preserves the table invariant. -/
theorem processDatagram_tableInv {D : Type} {dec : FecDecoder D} {config : ClientConfig}
    {inst : Bytes} {conns : ConnTable D} {origin : Nat} {message : Bytes} {now : Nat}
    {res : ConnTable D × List Event × List (Nat × Bytes)}
    (hcap : 1 ≤ config.ping_memory_length)
    (hinv : tablePingInv config.ping_memory_length conns)
    (h : processDatagram dec config inst conns origin message now = .ok res) :
    tablePingInv config.ping_memory_length res.1 := by
  unfold processDatagram at h
  split at h
  · cases h; exact hinv
  · split at h
    · exact processValid_tableInv hcap hinv h
    · cases h; exact hinv
  · split at h
    · cases h
      intro p hp
      exact hinv p (mem_removeConn hp)
    · cases h; exact hinv
  · split at h
    · exact processValid_tableInv hcap hinv h
    · cases h; exact hinv
  · split at h
    · exact processValid_tableInv hcap hinv h
    · cases h; exact hinv

end PingInvariant

/-- Unfolding equation of applyTimeResponse on a present sample. -/
theorem applyTimeResponse_some {D : Type} (cap now : Nat) (conn : Connection D)
    (time : Nat) :
    applyTimeResponse cap now conn (some time) =
      match checkedSub (now - conn.creation_time) time with
      | none => .error .overflow
      | some diff =>
        let p := pingStep cap conn.ping_memory diff
        .ok { conn with ping_memory := p.1, average_ping := some p.2 } := rfl

/-- C6: with ping_memory_length at least 1, processing any datagram keeps
every connection's ping_memory within capacity with average_ping the integer
mean of the buffer; pingStep evicts the front exactly at capacity and
appends the sample; and the tag-2 handler applies the sample
(now - creation_time) - t computed by the checked subtraction. -/
theorem rtt_buffer_invariant {D : Type} (dec : FecDecoder D) (config : ClientConfig)
    (inst : Bytes) (conns : ConnTable D) (origin : Nat) (message : Bytes) (now : Nat)
    (res : ConnTable D × List Event × List (Nat × Bytes))
    (hcap : 1 ≤ config.ping_memory_length)
    (hinv : tablePingInv config.ping_memory_length conns)
    (h : processDatagram dec config inst conns origin message now = .ok res) :
    tablePingInv config.ping_memory_length res.1 ∧
    (∀ (cap : Nat) (mem : List Nat) (sample : Nat), 1 ≤ cap → mem.length ≤ cap →
      (pingStep cap mem sample).1.length ≤ cap ∧
      (pingStep cap mem sample).2 =
        (pingStep cap mem sample).1.foldl (fun p e => p + e) 0 /
          (pingStep cap mem sample).1.length ∧
      (pingStep cap mem sample).1 =
        (if cap ≤ mem.length then mem.tail else mem) ++ [sample]) ∧
    (∀ (conn : Connection D) (time diff : Nat),
      checkedSub (now - conn.creation_time) time = some diff →
      applyTimeResponse config.ping_memory_length now conn (some time) =
        .ok { conn with
              ping_memory :=
                (pingStep config.ping_memory_length conn.ping_memory diff).1,
              average_ping :=
                some (pingStep config.ping_memory_length conn.ping_memory diff).2 }) := by
  refine ⟨processDatagram_tableInv hcap hinv h, ?_, ?_⟩
  · intro cap mem sample hc hl
    exact ⟨pingStep_length sample hc hl, pingStep_avg cap mem sample,
      pingStep_shape cap mem sample⟩
  · intro conn time diff hsub
    rw [applyTimeResponse_some, hsub]

/-- Witness for rtt_buffer_invariant: a tag-2 echo with timestamp 0 arriving
at elapsed time 5 yields the single sample 5. -/
theorem rtt_buffer_invariant_witness :
    (1 ≤ configA.ping_memory_length) ∧
    tablePingInv configA.ping_memory_length [(7, connA)] ∧
    tablePingInv configA.ping_memory_length
      [(7, { connA with last_received_keep_alive := 5, ping_memory := [5],
                        average_ping := some 5 })] :=
  ⟨by decide, by decide,
    (rtt_buffer_invariant countDecoder configA (List.replicate 16 0) [(7, connA)] 7
      (2 :: List.replicate 16 0) 5 _ (by decide) (by decide) rfl).1⟩

section ApiErrors

/-- writeChunks can only fail with MessageTooLong. -/
theorem writeChunks_error {max_message_size : Nat} :
    ∀ {chunks : List Bytes} {b : Bytes} {e : Error},
      writeChunks max_message_size b chunks = .error e → e = .MessageTooLong := by
  intro chunks
  induction chunks with
  | nil => intro b e h; cases h
  | cons c rest ih =>
    intro b e h
    unfold writeChunks at h
    split at h
    · rename_i heq
      cases h
      exact socketWriteE_error heq
    · exact ih h

/-- sendChannelPacket can only fail with MessageTooLong. -/
theorem sendChannelPacket_error {max_message_size channel_id : Nat} {chunks : List Bytes}
    {e : Error} (h : sendChannelPacket max_message_size channel_id chunks = .error e) :
    e = .MessageTooLong := by
  unfold sendChannelPacket at h
  split at h
  · rename_i heq
    cases h
    exact socketWriteE_error heq
  · exact writeChunks_error h

/-- exceptMapM propagates only errors its function can produce. -/
theorem exceptMapM_error {α : Type} {f : α → Except Error Bytes}
    (hf : ∀ a e, f a = .error e → e = .MessageTooLong) :
    ∀ {l : List α} {e : Error}, exceptMapM f l = .error e → e = .MessageTooLong := by
  intro l
  induction l with
  | nil => intro e h; cases h
  | cons a rest ih =>
    intro e h
    unfold exceptMapM at h
    split at h
    · rename_i heq
      cases h
      exact hf a e heq
    · split at h
      · rename_i heq
        cases h
        exact ih heq
      · cases h

/-- Channel::send can only fail with MessageTooLong or SendOnReceiveChannel. -/
theorem channelSend_error {D : Type} {enc : FecEncoder} {max_message_size now : Nat}
    {ch : Channel D} {message : Bytes} {e : Error}
    (h : channelSend enc max_message_size now ch message = .error e) :
    e = .MessageTooLong ∨ e = .SendOnReceiveChannel := by
  unfold channelSend at h
  split at h
  · rename_i heq
    cases h
    exact Or.inl (socketWriteE_error heq)
  · split at h
    · cases h; exact Or.inr rfl
    · cases h; exact Or.inr rfl
    · cases h; exact Or.inr rfl
    · split at h
      · rename_i heq
        cases h
        exact Or.inl (sendChannelPacket_error heq)
      · cases h
    · split at h
      · rename_i heq
        cases h
        exact Or.inl (sendChannelPacket_error heq)
      · cases h
    · dsimp only [] at h
      split at h
      · rename_i heq
        cases h
        exact Or.inl (exceptMapM_error (fun a e he => sendChannelPacket_error he) heq)
      · cases h

/-- Client::send never fails with SendSingleInvalid. -/
theorem clientSend_ne_sendSingleInvalid {D : Type} {enc : FecEncoder}
    {max_message_size now : Nat} {conns : ConnTable D} {addr channel_id : Nat}
    {message : Bytes}
    (h : clientSend enc max_message_size now conns addr channel_id message =
      .error .SendSingleInvalid) : False := by
  unfold clientSend at h
  split at h
  · cases h
  · split at h
    · cases h
    · split at h
      · rename_i heq
        cases h
        rcases channelSend_error heq with h' | h' <;> cases h'
      · cases h

end ApiErrors

/-- Unfolding equation of Client::send once the peer lookup succeeds. -/
theorem clientSend_some {D : Type} (enc : FecEncoder) (max_message_size now : Nat)
    (conns : ConnTable D) (addr channel_id : Nat) (message : Bytes)
    (conn : Connection D) (hlk : lookupConn conns addr = some conn) :
    clientSend enc max_message_size now conns addr channel_id message =
      (match conn.channels.get? channel_id with
       | none => .error .InvalidChannelId
       | some ch =>
         match channelSend enc max_message_size now ch message with
         | .error e => .error e
         | .ok r =>
           .ok (setConn conns addr
                  { conn with channels := conn.channels.set channel_id r.1 },
                r.2)) := by
  unfold clientSend
  rw [hlk]

/-- C7: send(peer, channel_id, payload) fails AddressNotConnected exactly
when the peer is absent, fails InvalidChannelId exactly when the peer is
present and channel_id is at least the channel count, and otherwise
delegates to Channel::send; send_single(channel_id, payload) fails
SendSingleInvalid exactly when the number of tracked connections is not 1,
and otherwise forwards to the unique peer. -/
theorem api_error_gating {D : Type} (enc : FecEncoder) (max_message_size now : Nat)
    (conns : ConnTable D) (addr channel_id : Nat) (message : Bytes) :
    ((clientSend enc max_message_size now conns addr channel_id message =
        .error .AddressNotConnected) ↔ lookupConn conns addr = none) ∧
    (∀ conn, lookupConn conns addr = some conn →
      ((clientSend enc max_message_size now conns addr channel_id message =
          .error .InvalidChannelId) ↔ conn.channels.length ≤ channel_id)) ∧
    (∀ conn ch, lookupConn conns addr = some conn →
      conn.channels.get? channel_id = some ch →
      clientSend enc max_message_size now conns addr channel_id message =
        (match channelSend enc max_message_size now ch message with
         | .error e => .error e
         | .ok r =>
           .ok (setConn conns addr
                  { conn with channels := conn.channels.set channel_id r.1 },
                r.2))) ∧
    ((clientSendSingle enc max_message_size now conns channel_id message =
        .error .SendSingleInvalid) ↔ conns.length ≠ 1) ∧
    (∀ p, conns = [p] →
      clientSendSingle enc max_message_size now conns channel_id message =
        clientSend enc max_message_size now conns p.1 channel_id message) := by
  refine ⟨?_, ?_, ?_, ?_, ?_⟩
  · constructor
    · intro h
      unfold clientSend at h
      split at h
      · assumption
      · split at h
        · cases h
        · split at h
          · rename_i heq
            cases h
            rcases channelSend_error heq with h' | h' <;> cases h'
          · cases h
    · intro h
      unfold clientSend
      rw [h]
  · intro conn hlk
    rw [clientSend_some enc max_message_size now conns addr channel_id message conn hlk]
    constructor
    · intro h
      split at h
      · rename_i hget
        exact List.get?_eq_none.1 hget
      · split at h
        · rename_i heq
          cases h
          rcases channelSend_error heq with h' | h' <;> cases h'
        · cases h
    · intro h
      rw [List.get?_eq_none.2 h]
  · intro conn ch hlk hget
    rw [clientSend_some enc max_message_size now conns addr channel_id message conn hlk,
      hget]
  · constructor
    · intro h
      match conns, h with
      | [], _ => simp
      | p :: q :: rest, _ =>
        simp only [List.length_cons]
        omega
      | [p], h => exact fun _ => clientSend_ne_sendSingleInvalid h
    · intro h
      unfold clientSendSingle
      match conns, h with
      | [], _ => rfl
      | p :: q :: rest, _ => rfl
      | [p], h => exact absurd rfl h
  · intro p hp
    subst hp
    rfl

/-- Witness for api_error_gating: an empty table yields AddressNotConnected
and SendSingleInvalid. -/
theorem api_error_gating_witness :
    (clientSend (fun m _ _ => ([m], 1)) 100 0 ([] : ConnTable (Nat × Nat)) 5 0 [] =
      .error .AddressNotConnected) ∧
    (clientSendSingle (fun m _ _ => ([m], 1)) 100 0 ([] : ConnTable (Nat × Nat)) 0 [] =
      .error .SendSingleInvalid) :=
  ⟨(api_error_gating (fun m _ _ => ([m], 1)) 100 0 [] 5 0 []).1.2 rfl,
   (api_error_gating (fun m _ _ => ([m], 1)) 100 0 [] 0 0 []).2.2.2.1.2 (by decide)⟩

section HeadBytes

/-- Appending chunks preserves the head byte of a nonempty staged buffer. -/
theorem writeChunks_head {max_message_size : Nat} :
    ∀ {chunks : List Bytes} {b r : Bytes}, b ≠ [] →
      writeChunks max_message_size b chunks = .ok r → r.head? = b.head? := by
  intro chunks
  induction chunks with
  | nil =>
    intro b r hb h
    cases h
    rfl
  | cons c rest ih =>
    intro b r hb h
    unfold writeChunks at h
    split at h
    · cases h
    · rename_i b' heq
      have hb' := socketWriteE_ok heq
      subst hb'
      have hne : (b ++ c) ≠ [] := by
        intro hh
        exact hb (List.append_eq_nil.1 hh).1
      rw [ih hne h]
      cases b with
      | nil => exact absurd rfl hb
      | cons x xs => rfl

/-- Every packet staged by sendChannelPacket starts with the prefix byte
channel_id + 3 (mod 256). -/
theorem sendChannelPacket_head {max_message_size channel_id : Nat} {chunks : List Bytes}
    {r : Bytes} (h : sendChannelPacket max_message_size channel_id chunks = .ok r) :
    r.head? = some ((channel_id + 3) % 256) := by
  unfold sendChannelPacket at h
  split at h
  · cases h
  · rename_i b heq
    have hb := socketWriteE_ok heq
    subst hb
    rw [writeChunks_head (by simp) h]
    rfl

/-- A property of every f-image holds of every element produced by
exceptMapM f. -/
theorem exceptMapM_all {α : Type} {f : α → Except Error Bytes} {P : Bytes → Prop}
    (hf : ∀ a r, f a = .ok r → P r) :
    ∀ {l : List α} {rs : List Bytes}, exceptMapM f l = .ok rs → ∀ p ∈ rs, P p := by
  intro l
  induction l with
  | nil =>
    intro rs h p hp
    cases h
    cases hp
  | cons a rest ih =>
    intro rs h p hp
    unfold exceptMapM at h
    split at h
    · cases h
    · rename_i b heq
      split at h
      · cases h
      · rename_i r2 heq2
        cases h
        rcases List.mem_cons.1 hp with rfl | hmem
        · exact hf a p heq
        · exact ih heq2 p hmem

/-- Every packet transmitted by Channel::send carries the prefix byte. -/
theorem channelSend_heads {D : Type} {enc : FecEncoder} {max_message_size now : Nat}
    {ch : Channel D} {message : Bytes} {ch' : Channel D} {sent : List Bytes}
    (h : channelSend enc max_message_size now ch message = .ok (ch', sent)) :
    ∀ p ∈ sent, p.head? = some ((ch.channel_id + 3) % 256) := by
  unfold channelSend at h
  split at h
  · cases h
  · split at h
    · cases h
    · cases h
    · cases h
    · split at h
      · cases h
      · rename_i b heq
        cases h
        intro p hp
        rw [List.mem_singleton.1 hp]
        exact sendChannelPacket_head heq
    · split at h
      · cases h
      · rename_i b heq
        cases h
        intro p hp
        rw [List.mem_singleton.1 hp]
        exact sendChannelPacket_head heq
    · dsimp only [] at h
      split at h
      · cases h
      · rename_i sent0 heq
        cases h
        exact exceptMapM_all (fun a r ha => sendChannelPacket_head ha) heq

/-- Every ack transmitted by fecDecodeStep carries the prefix byte,
provided the already-staged symbol ack does. -/
theorem fecDecodeStep_heads {D : Type} {dec : FecDecoder D}
    {max_message_size channel_id start : Nat} {messages : List (ReceiveFecMessage D)}
    {index seq_id : Nat} {symAck : Bytes} {d : D} {source_block_length : Nat}
    {r : ReceiveFecSt D × List Bytes × List Bytes}
    (hsym : symAck.head? = some ((channel_id + 3) % 256))
    (h : fecDecodeStep dec max_message_size channel_id start messages index seq_id
      symAck d source_block_length = .ok r) :
    ∀ p ∈ r.2.2, p.head? = some ((channel_id + 3) % 256) := by
  unfold fecDecodeStep at h
  split at h
  · split at h
    · cases h
    · rename_i ack heq
      cases h
      intro p hp
      rcases List.mem_cons.1 hp with rfl | hp2
      · exact hsym
      · rw [List.mem_singleton.1 hp2]
        exact sendChannelPacket_head heq
  · cases h
    intro p hp
    rw [List.mem_singleton.1 hp]
    exact hsym

/-- Every ack transmitted by the ReceiveFecReliable receive arm carries the
prefix byte. -/
theorem receiveFecReceive_heads {D : Type} {dec : FecDecoder D}
    {max_message_size channel_id : Nat} {st : ReceiveFecSt D} {message : Bytes}
    {r : ReceiveFecSt D × List Bytes × List Bytes}
    (h : receiveFecReceive dec max_message_size channel_id st message = .ok r) :
    ∀ p ∈ r.2.2, p.head? = some ((channel_id + 3) % 256) := by
  unfold receiveFecReceive at h
  split at h
  · dsimp only [] at h
    split at h
    · split at h
      · cases h
      · rename_i ack heq
        cases h
        intro p hp
        rw [List.mem_singleton.1 hp]
        exact sendChannelPacket_head heq
    · split at h
      · cases h
      · rename_i symAck heq1
        split at h
        · split at h
          · cases h
          · rename_i ack heq2
            cases h
            intro p hp
            rcases List.mem_cons.1 hp with rfl | hp2
            · exact sendChannelPacket_head heq1
            · rw [List.mem_singleton.1 hp2]
              exact sendChannelPacket_head heq2
        · exact fecDecodeStep_heads (sendChannelPacket_head heq1) h
        · exact fecDecodeStep_heads (sendChannelPacket_head heq1) h
  · cases h
    intro p hp
    cases hp

/-- Every packet transmitted by Channel::receive carries the prefix byte. -/
theorem channelReceive_heads {D : Type} {dec : FecDecoder D} {max_message_size : Nat}
    {ch : Channel D} {message : Bytes}
    {r : Channel D × List Bytes × List Bytes}
    (h : channelReceive dec max_message_size ch message = .ok r) :
    ∀ p ∈ r.2.2, p.head? = some ((ch.channel_id + 3) % 256) := by
  unfold channelReceive at h
  split at h
  · cases h
    intro p hp
    cases hp
  · cases h
    intro p hp
    cases hp
  · cases h
    intro p hp
    cases hp
  · cases h
    intro p hp
    cases hp
  · cases h
    intro p hp
    cases hp
  · split at h
    · cases h
    · rename_i rf heq
      cases h
      exact receiveFecReceive_heads heq

/-- Every packet resent by the SendReliable tick loop carries the prefix
byte. -/
theorem tickSendReliableLoop_heads {due : Nat → Bool}
    {max_message_size channel_id now : Nat} :
    ∀ {messages : List (Option (Nat × Bytes))} {seq : Nat}
      {r : List (Option (Nat × Bytes)) × List Bytes},
      tickSendReliableLoop due max_message_size channel_id now messages seq = .ok r →
      ∀ p ∈ r.2, p.head? = some ((channel_id + 3) % 256) := by
  intro messages
  induction messages with
  | nil =>
    intro seq r h p hp
    cases h
    cases hp
  | cons o rest ih =>
    intro seq r h p hp
    cases o with
    | none =>
      unfold tickSendReliableLoop at h
      split at h
      · cases h
      · rename_i r1 heq
        cases h
        exact ih heq p hp
    | some entry =>
      unfold tickSendReliableLoop at h
      split at h
      · split at h
        · cases h
        · rename_i pkt heq1
          split at h
          · cases h
          · rename_i r1 heq2
            cases h
            rcases List.mem_cons.1 hp with rfl | hp2
            · exact sendChannelPacket_head heq1
            · exact ih heq2 p hp2
      · split at h
        · cases h
        · rename_i r1 heq
          cases h
          exact ih heq p hp

/-- Every packet resent by the SendFecReliable tick loop carries the prefix
byte. -/
theorem tickSendFecLoop_heads {due : Nat → Bool}
    {max_message_size channel_id now : Nat} :
    ∀ {messages : List (Option (Nat × List (Option Bytes)))}
      {r : List (Option (Nat × List (Option Bytes))) × List Bytes},
      tickSendFecLoop due max_message_size channel_id now messages = .ok r →
      ∀ p ∈ r.2, p.head? = some ((channel_id + 3) % 256) := by
  intro messages
  induction messages with
  | nil =>
    intro r h p hp
    cases h
    cases hp
  | cons o rest ih =>
    intro r h p hp
    cases o with
    | none =>
      unfold tickSendFecLoop at h
      split at h
      · cases h
      · rename_i r1 heq
        cases h
        exact ih heq p hp
    | some entry =>
      unfold tickSendFecLoop at h
      split at h
      · split at h
        · cases h
        · rename_i sent0 heq1
          split at h
          · cases h
          · rename_i r1 heq2
            cases h
            rcases List.mem_append.1 hp with hp1 | hp2
            · exact exceptMapM_all (fun a q ha => sendChannelPacket_head ha) heq1 p hp1
            · exact ih heq2 p hp2
      · split at h
        · cases h
        · rename_i r1 heq
          cases h
          exact ih heq p hp

/-- Every packet transmitted by Channel::update carries the prefix byte. -/
theorem channelTick_heads {D : Type} {due : Nat → Bool} {ping : Option Nat}
    {max_message_size now : Nat} {ch : Channel D} {r : Channel D × List Bytes}
    (h : channelTick due ping max_message_size now ch = .ok r) :
    ∀ p ∈ r.2, p.head? = some ((ch.channel_id + 3) % 256) := by
  unfold channelTick at h
  split at h
  · cases h
    intro p hp
    cases hp
  · cases h
    intro p hp
    cases hp
  · cases h
    intro p hp
    cases hp
  · split at h
    · cases h
      intro p hp
      cases hp
    · split at h
      · cases h
      · rename_i r1 heq
        cases h
        exact tickSendReliableLoop_heads heq
  · split at h
    · cases h
    · rename_i sent heq
      cases h
      exact exceptMapM_all (fun a q ha => sendChannelPacket_head ha) heq
  · split at h
    · cases h
      intro p hp
      cases hp
    · split at h
      · cases h
      · rename_i r1 heq
        cases h
        exact tickSendFecLoop_heads heq

end HeadBytes

/-- C8: bind rejects every configuration with more than 252 channels with
TooManyChannels; for every channel id fitting a u8 after the + 3 offset (as
every id of an accepted configuration does), each packet transmitted by
Channel::send, Channel::receive or Channel::update carries the type byte
channel_id + 3, which is at least 3; and an inbound datagram whose type
byte maps to a channel id at or beyond channels.len() is never recorded for
dispatch. -/
theorem channel_id_bounds {D : Type} (dec : FecDecoder D) (enc : FecEncoder) :
    (∀ config : ClientConfig,
      (bindCheck config = .error .TooManyChannels ↔ 252 < config.channels.length)) ∧
    (∀ (max_message_size now : Nat) (ch : Channel D) (message : Bytes)
        (ch' : Channel D) (sent : List Bytes),
      ch.channel_id + 3 ≤ 255 →
      channelSend enc max_message_size now ch message = .ok (ch', sent) →
      ∀ p ∈ sent, p.head? = some (ch.channel_id + 3) ∧ 3 ≤ ch.channel_id + 3) ∧
    (∀ (max_message_size : Nat) (ch : Channel D) (message : Bytes)
        (r : Channel D × List Bytes × List Bytes),
      ch.channel_id + 3 ≤ 255 →
      channelReceive dec max_message_size ch message = .ok r →
      ∀ p ∈ r.2.2, p.head? = some (ch.channel_id + 3) ∧ 3 ≤ ch.channel_id + 3) ∧
    (∀ (due : Nat → Bool) (ping : Option Nat) (max_message_size now : Nat)
        (ch : Channel D) (r : Channel D × List Bytes),
      ch.channel_id + 3 ≤ 255 →
      channelTick due ping max_message_size now ch = .ok r →
      ∀ p ∈ r.2, p.head? = some (ch.channel_id + 3) ∧ 3 ≤ ch.channel_id + 3) ∧
    (∀ (numChannels : Nat) (message rest : Bytes) (channel_id : Nat),
      parseChannelMessage numChannels message = some (channel_id, rest) →
      channel_id < numChannels) := by
  refine ⟨?_, ?_, ?_, ?_, ?_⟩
  · intro config
    unfold bindCheck
    split <;> rename_i hc
    · simpa using hc
    · simp only [reduceCtorEq, false_iff]
      omega
  · intro max_message_size now ch message ch' sent hle h p hp
    have := channelSend_heads h p hp
    rw [Nat.mod_eq_of_lt (by omega)] at this
    exact ⟨this, by omega⟩
  · intro max_message_size ch message r hle h p hp
    have := channelReceive_heads h p hp
    rw [Nat.mod_eq_of_lt (by omega)] at this
    exact ⟨this, by omega⟩
  · intro due ping max_message_size now ch r hle h p hp
    have := channelTick_heads h p hp
    rw [Nat.mod_eq_of_lt (by omega)] at this
    exact ⟨this, by omega⟩
  · intro numChannels message rest channel_id h
    unfold parseChannelMessage at h
    split at h
    · cases h
    · split at h
      · cases h
      · split at h
        · rename_i hlt
          cases h
          exact hlt
        · cases h

/-- A concrete SendUnreliable channel for evaluating the embedding. -/
def chU : Channel (Nat × Nat) :=
  { addr := 9, channel_id := 0, channel_type := .SendUnreliable }

/-- Witness for channel_id_bounds: the bind guard on a small configuration,
a concrete unreliable send whose packet starts with type byte 3, and an
in-range parse. -/
theorem channel_id_bounds_witness :
    ((bindCheck configA = .error .TooManyChannels) ↔ 252 < configA.channels.length) ∧
    (∀ p ∈ [[3, 42]], p.head? = some (chU.channel_id + 3) ∧ 3 ≤ chU.channel_id + 3) ∧
    (2 < 5) :=
  ⟨(channel_id_bounds countDecoder (fun m _ _ => ([m], 1))).1 configA,
   (channel_id_bounds countDecoder (fun m _ _ => ([m], 1))).2.1 100 0 chU [42] chU
     [[3, 42]] (by decide) rfl,
   (channel_id_bounds countDecoder (fun m _ _ => ([m], 1))).2.2.2.2 5 [5, 0] [0] 2 rfl⟩

section AckIdempotence

/-- Setting a slot to the value it already holds leaves the list unchanged. -/
theorem set_get?_same {α : Type} :
    ∀ (l : List α) (i : Nat) (a : α), l.get? i = some a → l.set i a = l := by
  intro l
  induction l with
  | nil => intro i a h; cases h
  | cons x xs ih =>
    intro i a h
    cases i with
    | zero =>
      cases h
      rfl
    | succ n =>
      simp only [List.set_cons_succ]
      rw [ih n a h]

/-- trimNone drops an all-None front segment, leaving a front that is not
None. -/
theorem trimNone_spec {α : Type} :
    ∀ (l : List (Option α)) (s : Nat), ∃ k,
      trimNone l s = (l.drop k, s + k) ∧
      ∀ y, (l.drop k).head? = some y → y ≠ none := by
  intro l
  induction l with
  | nil =>
    intro s
    refine ⟨0, rfl, ?_⟩
    intro y hy
    cases hy
  | cons o rest ih =>
    intro s
    cases o with
    | none =>
      obtain ⟨k, hk, hh⟩ := ih (s + 1)
      refine ⟨k + 1, ?_, hh⟩
      show trimNone rest (s + 1) = (rest.drop k, s + (k + 1))
      rw [hk]
      have : s + 1 + k = s + (k + 1) := by omega
      rw [this]
    | some x =>
      refine ⟨0, rfl, ?_⟩
      intro y hy
      cases hy
      simp

/-- trimNone is the identity when the front is not None. -/
theorem trimNone_noop {α : Type} (l : List (Option α)) (s : Nat)
    (hh : ∀ y, l.head? = some y → y ≠ none) : trimNone l s = (l, s) := by
  cases l with
  | nil => rfl
  | cons y ys =>
    cases y with
    | none => exact absurd rfl (hh none rfl)
    | some a => rfl

/-- trimSome drops an all-Some front segment, leaving a front that is
None. -/
theorem trimSome_spec {α : Type} :
    ∀ (l : List (Option α)) (s : Nat), ∃ k,
      trimSome l s = (l.drop k, s + k) ∧
      ∀ y, (l.drop k).head? = some y → y = none := by
  intro l
  induction l with
  | nil =>
    intro s
    refine ⟨0, rfl, ?_⟩
    intro y hy
    cases hy
  | cons o rest ih =>
    intro s
    cases o with
    | some x =>
      obtain ⟨k, hk, hh⟩ := ih (s + 1)
      refine ⟨k + 1, ?_, hh⟩
      show trimSome rest (s + 1) = (rest.drop k, s + (k + 1))
      rw [hk]
      have : s + 1 + k = s + (k + 1) := by omega
      rw [this]
    | none =>
      refine ⟨0, rfl, ?_⟩
      intro y hy
      cases hy
      rfl

/-- Unfolding equation for ackClear below the ring start. -/
theorem ackClear_lt {α : Type} (seq start : Nat) (L : List (Option α))
    (h : seq < start) : ackClear seq start L = (start, L) := by
  unfold ackClear
  rw [if_pos h]

/-- Unfolding equation for ackClear beyond the ring. -/
theorem ackClear_oob {α : Type} (seq start : Nat) (L : List (Option α))
    (h1 : ¬ seq < start) (h2 : L.get? (seq - start) = none) :
    ackClear seq start L = (start, L) := by
  unfold ackClear
  rw [if_neg h1, h2]

/-- Unfolding equation for ackClear on a present slot. -/
theorem ackClear_hit {α : Type} (seq start : Nat) (L : List (Option α))
    (entry : Option α) (h1 : ¬ seq < start)
    (h2 : L.get? (seq - start) = some entry) :
    ackClear seq start L =
      ((trimNone (L.set (seq - start) none) start).2,
       (trimNone (L.set (seq - start) none) start).1) := by
  unfold ackClear
  rw [if_neg h1, h2]

/-- The mark-and-trim ack step is idempotent. -/
theorem ackClear_idem {α : Type} (seq start : Nat) (L : List (Option α)) :
    ackClear seq (ackClear seq start L).1 (ackClear seq start L).2 =
      ackClear seq start L := by
  by_cases hlt : seq < start
  · rw [ackClear_lt seq start L hlt, ackClear_lt seq start L hlt]
  · cases hget : L.get? (seq - start) with
    | none =>
      rw [ackClear_oob seq start L hlt hget, ackClear_oob seq start L hlt hget]
    | some entry =>
      have hilen : seq - start < L.length := by
        by_contra hge
        rw [List.get?_len_le (Nat.le_of_not_lt hge)] at hget
        cases hget
      obtain ⟨k, hk, hh⟩ := trimNone_spec (L.set (seq - start) none) start
      rw [ackClear_hit seq start L entry hlt hget, hk]
      by_cases hlt2 : seq < start + k
      · exact ackClear_lt seq (start + k) _ hlt2
      · have hsk : k + (seq - (start + k)) = seq - start := by omega
        have hget2 : ((L.set (seq - start) none).drop k).get? (seq - (start + k)) =
            some none := by
          rw [List.get?_drop, hsk]
          exact List.get?_set_eq_of_lt none hilen
        rw [ackClear_hit seq (start + k) _ none hlt2 hget2,
          set_get?_same _ _ _ hget2, trimNone_noop _ _ hh]

/-- srAckStep is idempotent. -/
theorem srAckStep_idem (st : SendReliableSt) (seq : Nat) :
    srAckStep (srAckStep st seq) seq = srAckStep st seq := by
  unfold srAckStep
  rw [ackClear_idem]

/-- fecWholeAckStep is idempotent. -/
theorem fecWholeAckStep_idem (st : SendFecSt) (seq : Nat) :
    fecWholeAckStep (fecWholeAckStep st seq) seq = fecWholeAckStep st seq := by
  unfold fecWholeAckStep
  rw [ackClear_idem]

end AckIdempotence

section FecSymbolIdem

/-- Unfolding equation for fecSymbolAckStep below the ring start. -/
theorem fecSym_lt (st : SendFecSt) (seq symbol_index : Nat)
    (h : seq < st.messages_start_seq) : fecSymbolAckStep st seq symbol_index = st := by
  unfold fecSymbolAckStep
  rw [if_pos h]

/-- Unfolding equation for fecSymbolAckStep beyond the ring. -/
theorem fecSym_none (st : SendFecSt) (seq symbol_index : Nat)
    (h1 : ¬ seq < st.messages_start_seq)
    (h2 : st.messages.get? (seq - st.messages_start_seq) = none) :
    fecSymbolAckStep st seq symbol_index = st := by
  unfold fecSymbolAckStep
  rw [if_neg h1, h2]

/-- Unfolding equation for fecSymbolAckStep on an already-cleared slot. -/
theorem fecSym_slotNone (st : SendFecSt) (seq symbol_index : Nat)
    (h1 : ¬ seq < st.messages_start_seq)
    (h2 : st.messages.get? (seq - st.messages_start_seq) = some none) :
    fecSymbolAckStep st seq symbol_index = st := by
  unfold fecSymbolAckStep
  rw [if_neg h1, h2]

/-- Unfolding equation for fecSymbolAckStep on an in-flight slot. -/
theorem fecSym_hit (st : SendFecSt) (seq symbol_index : Nat)
    (entry : Nat × List (Option Bytes)) (h1 : ¬ seq < st.messages_start_seq)
    (h2 : st.messages.get? (seq - st.messages_start_seq) = some (some entry)) :
    fecSymbolAckStep st seq symbol_index = fecSymbolAckSlot st seq symbol_index entry := by
  unfold fecSymbolAckStep
  rw [if_neg h1, h2]

/-- Unfolding equation for fecSymbolAckSlot on an out-of-range symbol
index. -/
theorem fecSlot_symMiss (st : SendFecSt) (seq symbol_index : Nat)
    (entry : Nat × List (Option Bytes))
    (h3 : entry.2.get? symbol_index = none) :
    fecSymbolAckSlot st seq symbol_index entry = st := by
  unfold fecSymbolAckSlot
  rw [h3]

/-- Unfolding equation for fecSymbolAckSlot when symbols remain after the
ack. -/
theorem fecSlot_remaining (st : SendFecSt) (seq symbol_index : Nat)
    (entry : Nat × List (Option Bytes)) (x : Option Bytes)
    (h3 : entry.2.get? symbol_index = some x)
    (h4 : (entry.2.set symbol_index none).any (fun e => e.isSome) = true) :
    fecSymbolAckSlot st seq symbol_index entry =
      { st with
        messages := st.messages.set (seq - st.messages_start_seq)
          (some (entry.1, entry.2.set symbol_index none)) } := by
  unfold fecSymbolAckSlot
  rw [h3, if_pos h4]

/-- Unfolding equation for fecSymbolAckSlot when the ack completes the
message. -/
theorem fecSlot_complete (st : SendFecSt) (seq symbol_index : Nat)
    (entry : Nat × List (Option Bytes)) (x : Option Bytes)
    (h3 : entry.2.get? symbol_index = some x)
    (h4 : ¬ (entry.2.set symbol_index none).any (fun e => e.isSome) = true) :
    fecSymbolAckSlot st seq symbol_index entry =
      { st with
        messages_start_seq :=
          (trimSome (st.messages.set (seq - st.messages_start_seq) none)
            st.messages_start_seq).2,
        messages :=
          (trimSome (st.messages.set (seq - st.messages_start_seq) none)
            st.messages_start_seq).1 } := by
  unfold fecSymbolAckSlot
  rw [h3, if_neg h4]

/-- fecSymbolAckStep is idempotent. -/
theorem fecSymbolAckStep_idem (st : SendFecSt) (seq symbol_index : Nat) :
    fecSymbolAckStep (fecSymbolAckStep st seq symbol_index) seq symbol_index =
      fecSymbolAckStep st seq symbol_index := by
  by_cases hlt : seq < st.messages_start_seq
  · rw [fecSym_lt st seq symbol_index hlt, fecSym_lt st seq symbol_index hlt]
  · cases hget : st.messages.get? (seq - st.messages_start_seq) with
    | none =>
      rw [fecSym_none st seq symbol_index hlt hget,
        fecSym_none st seq symbol_index hlt hget]
    | some slot =>
      have hilen : seq - st.messages_start_seq < st.messages.length := by
        by_contra hge
        rw [List.get?_len_le (Nat.le_of_not_lt hge)] at hget
        cases hget
      cases slot with
      | none =>
        rw [fecSym_slotNone st seq symbol_index hlt hget,
          fecSym_slotNone st seq symbol_index hlt hget]
      | some entry =>
        rw [fecSym_hit st seq symbol_index entry hlt hget]
        cases hsym : entry.2.get? symbol_index with
        | none =>
          rw [fecSlot_symMiss st seq symbol_index entry hsym,
            fecSym_hit st seq symbol_index entry hlt hget,
            fecSlot_symMiss st seq symbol_index entry hsym]
        | some x =>
          have hsilen : symbol_index < entry.2.length := by
            by_contra hge
            rw [List.get?_len_le (Nat.le_of_not_lt hge)] at hsym
            cases hsym
          have hsym2 : (entry.2.set symbol_index none).get? symbol_index =
              some none := List.get?_set_eq_of_lt none hsilen
          have hset2 : (entry.2.set symbol_index none).set symbol_index none =
              entry.2.set symbol_index none :=
            List.set_set none none entry.2 symbol_index
          by_cases hany : (entry.2.set symbol_index none).any (fun e => e.isSome) = true
          · rw [fecSlot_remaining st seq symbol_index entry x hsym hany]
            have hget2 : (st.messages.set (seq - st.messages_start_seq)
                  (some (entry.1, entry.2.set symbol_index none))).get?
                  (seq - st.messages_start_seq) =
                some (some (entry.1, entry.2.set symbol_index none)) :=
              List.get?_set_eq_of_lt _ hilen
            rw [fecSym_hit
              ⟨st.max_data_symbols, st.max_repair_symbols, st.seq_counter,
               st.messages_start_seq,
               st.messages.set (seq - st.messages_start_seq)
                 (some (entry.1, entry.2.set symbol_index none))⟩
              seq symbol_index (entry.1, entry.2.set symbol_index none) hlt hget2]
            have hany2 : (((entry.1, entry.2.set symbol_index none) :
                Nat × List (Option Bytes)).2.set symbol_index none).any
                (fun e => e.isSome) = true := by
              show ((entry.2.set symbol_index none).set symbol_index none).any
                (fun e => e.isSome) = true
              rw [hset2]
              exact hany
            rw [fecSlot_remaining
              ⟨st.max_data_symbols, st.max_repair_symbols, st.seq_counter,
               st.messages_start_seq,
               st.messages.set (seq - st.messages_start_seq)
                 (some (entry.1, entry.2.set symbol_index none))⟩
              seq symbol_index (entry.1, entry.2.set symbol_index none) none hsym2
              hany2]
            show { st with
              messages := (st.messages.set (seq - st.messages_start_seq)
                (some (entry.1, entry.2.set symbol_index none))).set
                (seq - st.messages_start_seq)
                (some (entry.1,
                  (entry.2.set symbol_index none).set symbol_index none)) } = _
            rw [hset2, List.set_set]
          · rw [fecSlot_complete st seq symbol_index entry x hsym hany]
            obtain ⟨k, hk, hh⟩ := trimSome_spec
              (st.messages.set (seq - st.messages_start_seq) none)
              st.messages_start_seq
            rw [hk]
            by_cases hlt2 : seq < st.messages_start_seq + k
            · exact fecSym_lt _ seq symbol_index hlt2
            · have hsk : k + (seq - (st.messages_start_seq + k)) =
                  seq - st.messages_start_seq := by omega
              have hget2 : ((st.messages.set (seq - st.messages_start_seq)
                  none).drop k).get? (seq - (st.messages_start_seq + k)) =
                  some none := by
                rw [List.get?_drop, hsk]
                exact List.get?_set_eq_of_lt none hilen
              exact fecSym_slotNone _ seq symbol_index hlt2 hget2

end FecSymbolIdem

/-- sendReliableReceive is idempotent on any ack frame. -/
theorem sendReliableReceive_idem (st : SendReliableSt) (m : Bytes) :
    sendReliableReceive (sendReliableReceive st m) m = sendReliableReceive st m := by
  unfold sendReliableReceive
  cases hg : listGet m 0 8 with
  | none => rfl
  | some bytes => exact srAckStep_idem st (beNat bytes)

/-- sendFecReceive is idempotent on any ack frame. -/
theorem sendFecReceive_idem (st : SendFecSt) (m : Bytes) :
    sendFecReceive (sendFecReceive st m) m = sendFecReceive st m := by
  unfold sendFecReceive
  cases hh : m.head? with
  | none => rfl
  | some tag =>
    match tag with
    | 0 =>
      cases hg : listGet m 1 9 with
      | none => rfl
      | some seqBytes => exact fecWholeAckStep_idem st (beNat seqBytes)
    | 1 =>
      cases hg : listGet m 1 9 with
      | none =>
        cases hgi : m.get? 9 with
        | none => rfl
        | some symbol_index => rfl
      | some seqBytes =>
        cases hgi : m.get? 9 with
        | none => rfl
        | some symbol_index =>
          exact fecSymbolAckStep_idem st (beNat seqBytes) symbol_index
    | (t + 2) => rfl

/-- Iterating an idempotent transformer at least once equals one
application. -/
theorem iterateApply_idem {α : Type} (f : α → α) (hf : ∀ a, f (f a) = f a) :
    ∀ (n : Nat) (a : α), 1 ≤ n → iterateApply f n a = f a := by
  intro n
  induction n with
  | zero =>
    intro a h
    exact absurd h (by omega)
  | succ k ih =>
    intro a h
    cases k with
    | zero => rfl
    | succ j =>
      show iterateApply f (j + 1) (f a) = f a
      rw [ih (f a) (by omega), hf]

/-- C5: delivering the same ack frame N >= 1 times to a SendReliable or
SendFecReliable channel yields the same channel state as delivering it
exactly once. -/
theorem ack_idempotence (st1 : SendReliableSt) (st2 : SendFecSt) (m1 m2 : Bytes)
    (n : Nat) (hn : 1 ≤ n) :
    iterateApply (fun s => sendReliableReceive s m1) n st1 =
      sendReliableReceive st1 m1 ∧
    iterateApply (fun s => sendFecReceive s m2) n st2 = sendFecReceive st2 m2 :=
  ⟨iterateApply_idem _ (fun a => sendReliableReceive_idem a m1) n st1 hn,
   iterateApply_idem _ (fun a => sendFecReceive_idem a m2) n st2 hn⟩

/-- Witness for ack_idempotence: delivering a reliable ack for sequence 0
and a FEC whole-message ack for sequence 0 three times equals once. -/
theorem ack_idempotence_witness :
    (1 ≤ 3) ∧
    iterateApply (fun s => sendReliableReceive s [0, 0, 0, 0, 0, 0, 0, 0]) 3
      ⟨1, 0, [some (0, [5])]⟩ =
      sendReliableReceive ⟨1, 0, [some (0, [5])]⟩ [0, 0, 0, 0, 0, 0, 0, 0] ∧
    iterateApply (fun s => sendFecReceive s [0, 0, 0, 0, 0, 0, 0, 0, 0]) 3
      ⟨4, 3, 1, 0, [some (0, [some [5]])]⟩ =
      sendFecReceive ⟨4, 3, 1, 0, [some (0, [some [5]])]⟩
        [0, 0, 0, 0, 0, 0, 0, 0, 0] :=
  ⟨by decide,
   (ack_idempotence ⟨1, 0, [some (0, [5])]⟩ ⟨4, 3, 1, 0, [some (0, [some [5]])]⟩
     [0, 0, 0, 0, 0, 0, 0, 0] [0, 0, 0, 0, 0, 0, 0, 0, 0] 3 (by decide)).1,
   (ack_idempotence ⟨1, 0, [some (0, [5])]⟩ ⟨4, 3, 1, 0, [some (0, [some [5]])]⟩
     [0, 0, 0, 0, 0, 0, 0, 0] [0, 0, 0, 0, 0, 0, 0, 0, 0] 3 (by decide)).2⟩

section DuplicateSuppression

/-- A successful lookup stays within bounds. -/
theorem get?_lt {α : Type} {l : List α} {j : Nat} {a : α} (h : l.get? j = some a) :
    j < l.length := by
  by_contra hge
  rw [List.get?_len_le (Nat.le_of_not_lt hge)] at h
  cases h

/-- Growing a ring preserves every present slot. -/
theorem get?_growTo {α : Type} (pad : α) (l : List α) (i j : Nat) (a : α)
    (h : l.get? j = some a) : (growTo pad l i).get? j = some a := by
  unfold growTo
  rw [List.get?_append (get?_lt h)]
  exact h

/-- The grown ring has a slot at the grown index. -/
theorem growTo_length {α : Type} (pad : α) (l : List α) (i : Nat) :
    i < (growTo pad l i).length := by
  unfold growTo
  rw [List.length_append, List.length_replicate]
  omega

/-- getD reads through get?. -/
theorem getD_eq {α : Type} (l : List α) (i : Nat) (d : α) :
    l.getD i d = (l.get? i).getD d := by
  simp [List.getD]

/-- trimFalse drops an all-false front segment. -/
theorem trimFalse_spec :
    ∀ (l : List Bool) (s : Nat), ∃ k,
      trimFalse l s = (l.drop k, s + k) ∧ ∀ j, j < k → l.get? j = some false := by
  intro l
  induction l with
  | nil =>
    intro s
    refine ⟨0, rfl, ?_⟩
    intro j hj
    omega
  | cons b rest ih =>
    intro s
    cases b with
    | false =>
      obtain ⟨k, hk, hh⟩ := ih (s + 1)
      refine ⟨k + 1, ?_, ?_⟩
      · show trimFalse rest (s + 1) = (rest.drop k, s + (k + 1))
        rw [hk]
        have : s + 1 + k = s + (k + 1) := by omega
        rw [this]
      · intro j hj
        cases j with
        | zero => rfl
        | succ jj => exact hh jj (by omega)
    | true =>
      refine ⟨0, rfl, ?_⟩
      intro j hj
      omega

/-- Unfolding equation for rrStep on an already-trimmed sequence. -/
theorem rrStep_lt (st : ReceiveReliableSt) (seq : Nat)
    (h : seq < st.received_start_seq) :
    rrStep st seq =
      (⟨st.acks_to_send ++ [seq], st.received_start_seq, st.received⟩, false) := by
  unfold rrStep
  rw [if_pos h]

/-- Unfolding equation for rrStep on an already-seen sequence. -/
theorem rrStep_dup (st : ReceiveReliableSt) (seq : Nat)
    (h1 : ¬ seq < st.received_start_seq)
    (h2 : (growTo false st.received (seq - st.received_start_seq)).getD
      (seq - st.received_start_seq) false = true) :
    rrStep st seq =
      (⟨st.acks_to_send ++ [seq], st.received_start_seq,
        growTo false st.received (seq - st.received_start_seq)⟩, false) := by
  unfold rrStep
  rw [if_neg h1, if_pos h2]

/-- Unfolding equation for rrStep on a newly seen sequence. -/
theorem rrStep_new (st : ReceiveReliableSt) (seq : Nat)
    (h1 : ¬ seq < st.received_start_seq)
    (h2 : ¬ (growTo false st.received (seq - st.received_start_seq)).getD
      (seq - st.received_start_seq) false = true) :
    rrStep st seq =
      (⟨st.acks_to_send ++ [seq],
        (trimFalse ((growTo false st.received (seq - st.received_start_seq)).set
          (seq - st.received_start_seq) true) st.received_start_seq).2,
        (trimFalse ((growTo false st.received (seq - st.received_start_seq)).set
          (seq - st.received_start_seq) true) st.received_start_seq).1⟩, true) := by
  unfold rrStep
  rw [if_neg h1, if_neg h2]

/-- Once a sequence is blocked for a ReceiveReliable ring, rrStep keeps it
blocked. -/
theorem rrStep_mono (st : ReceiveReliableSt) (seq s : Nat) (hb : rrBlocked st s) :
    rrBlocked (rrStep st seq).1 s := by
  by_cases h1 : seq < st.received_start_seq
  · rw [rrStep_lt st seq h1]
    exact hb
  · by_cases h2 : (growTo false st.received (seq - st.received_start_seq)).getD
        (seq - st.received_start_seq) false = true
    · rw [rrStep_dup st seq h1 h2]
      rcases hb with hlt | hslot
      · exact Or.inl hlt
      · exact Or.inr (get?_growTo false st.received _ _ true hslot)
    · rw [rrStep_new st seq h1 h2]
      obtain ⟨k, hk, hpop⟩ := trimFalse_spec
        ((growTo false st.received (seq - st.received_start_seq)).set
          (seq - st.received_start_seq) true) st.received_start_seq
      rw [hk]
      rcases hb with hlt | hslot
      · exact Or.inl (show s < st.received_start_seq + k by omega)
      · have hgrow : (growTo false st.received (seq - st.received_start_seq)).get?
            (s - st.received_start_seq) = some true :=
          get?_growTo false st.received _ _ true hslot
        have hne : s - st.received_start_seq ≠ seq - st.received_start_seq := by
          intro heq
          rw [heq] at hgrow
          rw [getD_eq, hgrow] at h2
          exact h2 rfl
        have hset : ((growTo false st.received (seq - st.received_start_seq)).set
            (seq - st.received_start_seq) true).get? (s - st.received_start_seq) =
            some true := by
          rw [List.get?_set_ne true _ (fun h => hne h.symm)]
          exact hgrow
        have hge : ¬ s - st.received_start_seq < k := by
          intro hlt2
          rw [hpop _ hlt2] at hset
          cases hset
        rcases Nat.lt_or_ge s st.received_start_seq with hcase | hcase
        · exact Or.inl (show s < st.received_start_seq + k by omega)
        · right
          show (((growTo false st.received (seq - st.received_start_seq)).set
            (seq - st.received_start_seq) true).drop k).get?
            (s - (st.received_start_seq + k)) = some true
          rw [List.get?_drop,
            (by omega :
              k + (s - (st.received_start_seq + k)) = s - st.received_start_seq)]
          exact hset

end DuplicateSuppression

section FecSuppression

/-- trimReceived drops an all-Received front segment. -/
theorem trimReceived_spec {D : Type} :
    ∀ (l : List (ReceiveFecMessage D)) (s : Nat), ∃ k,
      trimReceived l s = (l.drop k, s + k) ∧
      ∀ j, j < k → l.get? j = some .Received := by
  intro l
  induction l with
  | nil =>
    intro s
    exact ⟨0, rfl, fun j hj => absurd hj (by omega)⟩
  | cons o rest ih =>
    intro s
    cases o with
    | Received =>
      obtain ⟨k, hk, hh⟩ := ih (s + 1)
      refine ⟨k + 1, ?_, ?_⟩
      · show trimReceived rest (s + 1) = (rest.drop k, s + (k + 1))
        rw [hk, (by omega : s + 1 + k = s + (k + 1))]
      · intro j hj
        cases j with
        | zero => rfl
        | succ jj => exact hh jj (by omega)
    | NotSeen => exact ⟨0, rfl, fun j hj => absurd hj (by omega)⟩
    | Receiving d => exact ⟨0, rfl, fun j hj => absurd hj (by omega)⟩

/-- fecDecodeStep keeps a blocked sequence blocked, provided the pushed slot
is not Received. -/
theorem fecDecodeStep_mono {D : Type} {dec : FecDecoder D}
    {max_message_size channel_id start : Nat} {messages : List (ReceiveFecMessage D)}
    {index seq_id : Nat} {symAck : Bytes} {d : D} {sbl : Nat}
    {r : ReceiveFecSt D × List Bytes × List Bytes} (s : Nat)
    (hnr : messages.get? index ≠ some .Received)
    (h : fecDecodeStep dec max_message_size channel_id start messages index seq_id
      symAck d sbl = .ok r)
    (hb : s < start ∨ messages.get? (s - start) = some .Received) :
    fecBlocked r.1 s := by
  unfold fecDecodeStep at h
  split at h
  · split at h
    · cases h
    · cases h
      obtain ⟨k, hk, hpop⟩ := trimReceived_spec (messages.set index .Received) start
      unfold fecBlocked
      rw [hk]
      rcases hb with hlt | hslot
      · exact Or.inl (show s < start + k by omega)
      · have hne : s - start ≠ index := fun he => hnr (he ▸ hslot)
        have hset : (messages.set index .Received).get? (s - start) =
            some .Received := by
          rw [List.get?_set_ne _ _ (fun hh => hne hh.symm)]
          exact hslot
        rcases Nat.lt_or_ge s start with hcase | hcase
        · exact Or.inl (show s < start + k by omega)
        · by_cases hK : s - start < k
          · exact Or.inl (show s < start + k by omega)
          · right
            show ((messages.set index .Received).drop k).get? (s - (start + k)) =
              some .Received
            rw [List.get?_drop, (by omega : k + (s - (start + k)) = s - start)]
            exact hset
  · cases h
    rcases hb with hlt | hslot
    · exact Or.inl hlt
    · right
      have hne : s - start ≠ index := fun he => hnr (he ▸ hslot)
      show (messages.set index (.Receiving d)).get? (s - start) = some .Received
      rw [List.get?_set_ne _ _ (fun hh => hne hh.symm)]
      exact hslot

/-- When fecDecodeStep delivers a message, the frame's sequence is blocked
afterwards. -/
theorem fecDecodeStep_emit {D : Type} {dec : FecDecoder D}
    {max_message_size channel_id start : Nat} {messages : List (ReceiveFecMessage D)}
    {index seq_id : Nat} {symAck : Bytes} {d : D} {sbl : Nat}
    {r : ReceiveFecSt D × List Bytes × List Bytes}
    (hs : start ≤ seq_id) (hidx : index = seq_id - start)
    (hlen : index < messages.length)
    (h : fecDecodeStep dec max_message_size channel_id start messages index seq_id
      symAck d sbl = .ok r)
    (he : r.2.1 ≠ []) : fecBlocked r.1 seq_id := by
  unfold fecDecodeStep at h
  split at h
  · split at h
    · cases h
    · cases h
      obtain ⟨k, hk, hpop⟩ := trimReceived_spec (messages.set index .Received) start
      unfold fecBlocked
      rw [hk]
      have hset : (messages.set index .Received).get? index = some .Received :=
        List.get?_set_eq_of_lt _ hlen
      by_cases hK : index < k
      · exact Or.inl (show seq_id < start + k by omega)
      · right
        show ((messages.set index .Received).drop k).get? (seq_id - (start + k)) =
          some .Received
        rw [List.get?_drop, (by omega : k + (seq_id - (start + k)) = index)]
        exact hset
  · cases h
    exact absurd rfl he

end FecSuppression

section FecSuppression2

/-- receiveFecReceive keeps a blocked sequence blocked. -/
theorem fecReceive_mono {D : Type} {dec : FecDecoder D}
    {max_message_size channel_id : Nat} {st : ReceiveFecSt D} {m : Bytes}
    {r : ReceiveFecSt D × List Bytes × List Bytes} (s : Nat)
    (h : receiveFecReceive dec max_message_size channel_id st m = .ok r)
    (hb : fecBlocked st s) : fecBlocked r.1 s := by
  unfold receiveFecReceive at h
  split at h
  · rename_i seqBytes nssBytes idxBytes lenBytes hq1 hq2 hq3 hq4
    dsimp only [] at h
    split at h
    · split at h
      · cases h
      · cases h
        exact hb
    · split at h
      · cases h
      · rename_i symAck heq1
        split at h
        · split at h
          · cases h
          · cases h
            rcases hb with hblt | hbslot
            · exact Or.inl hblt
            · exact Or.inr (get?_growTo _ _ _ _ _ hbslot)
        · rename_i heqD
          have hnr : (growTo ReceiveFecMessage.NotSeen st.messages
              (beNat seqBytes - st.messages_start_seq)).get?
              (beNat seqBytes - st.messages_start_seq) ≠ some .Received := by
            intro hcont
            rw [getD_eq, hcont] at heqD
            cases heqD
          refine fecDecodeStep_mono s hnr h ?_
          rcases hb with hblt | hbslot
          · exact Or.inl hblt
          · exact Or.inr (get?_growTo _ _ _ _ _ hbslot)
        · rename_i d heqD
          have hnr : (growTo ReceiveFecMessage.NotSeen st.messages
              (beNat seqBytes - st.messages_start_seq)).get?
              (beNat seqBytes - st.messages_start_seq) ≠ some .Received := by
            intro hcont
            rw [getD_eq, hcont] at heqD
            cases heqD
          refine fecDecodeStep_mono s hnr h ?_
          rcases hb with hblt | hbslot
          · exact Or.inl hblt
          · exact Or.inr (get?_growTo _ _ _ _ _ hbslot)
  · cases h
    exact hb

/-- When receiveFecReceive delivers a message for sequence s, s was not
blocked before and is blocked afterwards. -/
theorem fecReceive_emit {D : Type} {dec : FecDecoder D}
    {max_message_size channel_id : Nat} {st : ReceiveFecSt D} {m : Bytes}
    {r : ReceiveFecSt D × List Bytes × List Bytes} (s : Nat)
    (hf : frameSeq m = some s)
    (h : receiveFecReceive dec max_message_size channel_id st m = .ok r)
    (he : r.2.1 ≠ []) : ¬ fecBlocked st s ∧ fecBlocked r.1 s := by
  unfold receiveFecReceive at h
  split at h
  · rename_i seqBytes nssBytes idxBytes lenBytes hq1 hq2 hq3 hq4
    have hs : beNat seqBytes = s := by
      unfold frameSeq at hf
      rw [hq1] at hf
      simpa using hf
    subst hs
    dsimp only [] at h
    split at h
    · split at h
      · cases h
      · cases h
        exact absurd rfl he
    · rename_i hlt
      split at h
      · cases h
      · rename_i symAck heq1
        split at h
        · split at h
          · cases h
          · cases h
            exact absurd rfl he
        · rename_i heqD
          refine ⟨?_, fecDecodeStep_emit (Nat.le_of_not_lt hlt) rfl
            (growTo_length _ _ _) h he⟩
          intro hb
          rcases hb with hblt | hbslot
          · exact hlt hblt
          · rw [getD_eq, get?_growTo ReceiveFecMessage.NotSeen st.messages
              (beNat seqBytes - st.messages_start_seq) _ _ hbslot] at heqD
            cases heqD
        · rename_i d heqD
          refine ⟨?_, fecDecodeStep_emit (Nat.le_of_not_lt hlt) rfl
            (growTo_length _ _ _) h he⟩
          intro hb
          rcases hb with hblt | hbslot
          · exact hlt hblt
          · rw [getD_eq, get?_growTo ReceiveFecMessage.NotSeen st.messages
              (beNat seqBytes - st.messages_start_seq) _ _ hbslot] at heqD
            cases heqD
  · cases h
    exact absurd rfl he

end FecSuppression2

instance (st : ReceiveReliableSt) (s : Nat) : Decidable (rrBlocked st s) := by
  unfold rrBlocked
  infer_instance

instance {D : Type} [DecidableEq D] (st : ReceiveFecSt D) (s : Nat) :
    Decidable (fecBlocked st s) := by
  unfold fecBlocked
  infer_instance

section Counting

/-- A delivered sequence was not blocked before and is blocked after the
rrStep. -/
theorem rrStep_emit (st : ReceiveReliableSt) (seq : Nat)
    (he : (rrStep st seq).2 = true) :
    ¬ rrBlocked st seq ∧ rrBlocked (rrStep st seq).1 seq := by
  by_cases h1 : seq < st.received_start_seq
  · rw [rrStep_lt st seq h1] at he
    cases he
  · by_cases h2 : (growTo false st.received (seq - st.received_start_seq)).getD
        (seq - st.received_start_seq) false = true
    · rw [rrStep_dup st seq h1 h2] at he
      cases he
    · constructor
      · intro hb
        rcases hb with hlt | hslot
        · exact h1 hlt
        · rw [getD_eq, get?_growTo false st.received
            (seq - st.received_start_seq) _ _ hslot] at h2
          exact h2 rfl
      · rw [rrStep_new st seq h1 h2]
        obtain ⟨k, hk, hpop⟩ := trimFalse_spec
          ((growTo false st.received (seq - st.received_start_seq)).set
            (seq - st.received_start_seq) true) st.received_start_seq
        rw [hk]
        have hset : ((growTo false st.received (seq - st.received_start_seq)).set
            (seq - st.received_start_seq) true).get? (seq - st.received_start_seq) =
            some true :=
          List.get?_set_eq_of_lt true (growTo_length false st.received _)
        have hge : ¬ seq - st.received_start_seq < k := by
          intro hlt2
          rw [hpop _ hlt2] at hset
          cases hset
        right
        show (((growTo false st.received (seq - st.received_start_seq)).set
          (seq - st.received_start_seq) true).drop k).get?
          (seq - (st.received_start_seq + k)) = some true
        rw [List.get?_drop,
          (by omega :
            k + (seq - (st.received_start_seq + k)) = seq - st.received_start_seq)]
        exact hset

/-- receiveReliableReceive keeps a blocked sequence blocked. -/
theorem rrReceive_mono (st : ReceiveReliableSt) (m : Bytes) (s : Nat)
    (hb : rrBlocked st s) : rrBlocked (receiveReliableReceive st m).1 s := by
  unfold receiveReliableReceive
  cases hg : listGet m 0 8 with
  | none => exact hb
  | some bytes => exact rrStep_mono st (beNat bytes) s hb

/-- When receiveReliableReceive delivers a message for sequence s, s was not
blocked before and is blocked afterwards. -/
theorem rrReceive_emit (st : ReceiveReliableSt) (m : Bytes) (s : Nat)
    (hf : frameSeq m = some s) (he : (receiveReliableReceive st m).2 ≠ []) :
    ¬ rrBlocked st s ∧ rrBlocked (receiveReliableReceive st m).1 s := by
  unfold receiveReliableReceive at he ⊢
  cases hg : listGet m 0 8 with
  | none =>
    unfold frameSeq at hf
    rw [hg] at hf
    cases hf
  | some bytes =>
    rw [hg] at he
    have hs : beNat bytes = s := by
      unfold frameSeq at hf
      rw [hg] at hf
      simpa using hf
    subst hs
    have he' : (if (rrStep st (beNat bytes)).2 = true then [List.drop 8 m]
        else []) ≠ [] := he
    have hflag : (rrStep st (beNat bytes)).2 = true := by
      cases hfl : (rrStep st (beNat bytes)).2
      · rw [hfl] at he'
        simp at he'
      · rfl
    exact ⟨(rrStep_emit st (beNat bytes) hflag).1, (rrStep_emit st (beNat bytes) hflag).2⟩

/-- A blocked sequence contributes no emission over any run of a
ReceiveReliable channel. -/
theorem rrBlocked_count (s : Nat) :
    ∀ (frames : List Bytes) (st : ReceiveReliableSt), rrBlocked st s →
      rrEmitCount st frames s = 0 := by
  intro frames
  induction frames with
  | nil => intro st hb; rfl
  | cons m rest ih =>
    intro st hb
    unfold rrEmitCount
    rw [ih _ (rrReceive_mono st m s hb)]
    have hno : ¬ (frameSeq m = some s ∧ (receiveReliableReceive st m).2 ≠ []) := by
      rintro ⟨hf, he⟩
      exact (rrReceive_emit st m s hf he).1 hb
    rw [if_neg hno]

/-- C3, ReceiveReliable half: at most one emission per sequence over any
run. -/
theorem rrCount_le_one (s : Nat) :
    ∀ (frames : List Bytes) (st : ReceiveReliableSt),
      rrEmitCount st frames s ≤ 1 := by
  intro frames
  induction frames with
  | nil => intro st; exact Nat.zero_le 1
  | cons m rest ih =>
    intro st
    unfold rrEmitCount
    by_cases hc : frameSeq m = some s ∧ (receiveReliableReceive st m).2 ≠ []
    · rw [if_pos hc, rrBlocked_count s rest _ (rrReceive_emit st m s hc.1 hc.2).2]
    · rw [if_neg hc]
      simpa using ih (receiveReliableReceive st m).1

/-- A blocked sequence contributes no emission over any run of a
ReceiveFecReliable channel. -/
theorem fecBlocked_count {D : Type} (dec : FecDecoder D)
    (max_message_size channel_id : Nat) (s : Nat) :
    ∀ (frames : List Bytes) (st : ReceiveFecSt D), fecBlocked st s →
      fecEmitCount dec max_message_size channel_id st frames s = 0 := by
  intro frames
  induction frames with
  | nil => intro st hb; rfl
  | cons m rest ih =>
    intro st hb
    unfold fecEmitCount
    cases hr : receiveFecReceive dec max_message_size channel_id st m with
    | error e => rfl
    | ok r =>
      show (if frameSeq m = some s ∧ r.2.1 ≠ [] then 1 else 0) +
        fecEmitCount dec max_message_size channel_id r.1 rest s = 0
      rw [ih _ (fecReceive_mono s hr hb)]
      have hno : ¬ (frameSeq m = some s ∧ r.2.1 ≠ []) := by
        rintro ⟨hf, he⟩
        exact (fecReceive_emit s hf hr he).1 hb
      rw [if_neg hno]

/-- C3, ReceiveFecReliable half: at most one emission per sequence over any
run. -/
theorem fecCount_le_one {D : Type} (dec : FecDecoder D)
    (max_message_size channel_id : Nat) (s : Nat) :
    ∀ (frames : List Bytes) (st : ReceiveFecSt D),
      fecEmitCount dec max_message_size channel_id st frames s ≤ 1 := by
  intro frames
  induction frames with
  | nil => intro st; exact Nat.zero_le 1
  | cons m rest ih =>
    intro st
    unfold fecEmitCount
    cases hr : receiveFecReceive dec max_message_size channel_id st m with
    | error e => exact Nat.zero_le 1
    | ok r =>
      show (if frameSeq m = some s ∧ r.2.1 ≠ [] then 1 else 0) +
        fecEmitCount dec max_message_size channel_id r.1 rest s ≤ 1
      by_cases hc : frameSeq m = some s ∧ r.2.1 ≠ []
      · rw [if_pos hc, fecBlocked_count dec max_message_size channel_id s rest _
          (fecReceive_emit s hc.1 hr hc.2).2]
      · rw [if_neg hc]
        simpa using ih r.1

end Counting

/-- C3: over any sequence of inbound frames, however replayed or reordered,
a ReceiveReliable channel and a ReceiveFecReliable channel each emit at
most one application message per sequence number; a frame whose sequence is
already delivered or already trimmed produces no message. -/
theorem duplicate_suppression {D : Type} (dec : FecDecoder D)
    (max_message_size channel_id : Nat) (frames : List Bytes) (s : Nat)
    (st1 : ReceiveReliableSt) (st2 : ReceiveFecSt D) :
    (rrEmitCount st1 frames s ≤ 1) ∧
    (rrBlocked st1 s → rrEmitCount st1 frames s = 0) ∧
    (fecEmitCount dec max_message_size channel_id st2 frames s ≤ 1) ∧
    (fecBlocked st2 s → fecEmitCount dec max_message_size channel_id st2 frames s = 0) :=
  ⟨rrCount_le_one s frames st1,
   fun hb => rrBlocked_count s frames st1 hb,
   fecCount_le_one dec max_message_size channel_id s frames st2,
   fun hb => fecBlocked_count dec max_message_size channel_id s frames st2 hb⟩

/-- Witness for duplicate_suppression: replaying the frame for sequence 0
twice emits it once on a fresh reliable ring and zero times on a ring that
has already delivered it. -/
theorem duplicate_suppression_witness :
    (rrEmitCount ⟨[], 0, []⟩ [[0, 0, 0, 0, 0, 0, 0, 0, 42], [0, 0, 0, 0, 0, 0, 0, 0, 42]]
      0 ≤ 1) ∧
    (rrBlocked ⟨[], 0, [true]⟩ 0 ∧
      rrEmitCount ⟨[], 0, [true]⟩ [[0, 0, 0, 0, 0, 0, 0, 0, 42]] 0 = 0) ∧
    (fecEmitCount countDecoder 100 0 ⟨0, []⟩
      [[0, 0, 0, 0, 0, 0, 0, 0, 0, 0, 0, 1, 0, 0, 0],
       [0, 0, 0, 0, 0, 0, 0, 0, 0, 0, 0, 1, 0, 0, 0]] 0 ≤ 1) ∧
    (fecBlocked (⟨0, [ReceiveFecMessage.Received]⟩ : ReceiveFecSt (Nat × Nat)) 0 ∧
      fecEmitCount countDecoder 100 0 ⟨0, [ReceiveFecMessage.Received]⟩
        [[0, 0, 0, 0, 0, 0, 0, 0, 0, 0, 0, 1, 0, 0, 0]] 0 = 0) :=
  ⟨(duplicate_suppression countDecoder 100 0 _ 0 ⟨[], 0, []⟩ ⟨0, []⟩).1,
   ⟨by decide,
    (duplicate_suppression countDecoder 100 0 _ 0 ⟨[], 0, [true]⟩ ⟨0, []⟩).2.1
      (by decide)⟩,
   (duplicate_suppression countDecoder 100 0 _ 0 ⟨[], 0, []⟩ ⟨0, []⟩).2.2.1,
   ⟨by decide,
    (duplicate_suppression countDecoder 100 0 _ 0 ⟨[], 0, []⟩
      ⟨0, [ReceiveFecMessage.Received]⟩).2.2.2 (by decide)⟩⟩

end NiftyUdp
